import Mathlib

/-!
Verification development for the Ibadan Photographers Directory / Lagos Photo
Buyer Leads repository.

The repository contains two near-identical generation pipelines
(`generatePhotographerData` in `src/services/geminiService.ts` and
`generateBuyerData` in the buyer-variant service file), a bracket-based JSON
array extraction helper (`extractJsonArrayString`, identical in both files),
and two near-identical CSV download handlers (`handleDownloadCsv` in the two
`App.tsx` variants).

Strings are modelled as `List Char`.  JSON values (the result of the
JavaScript `JSON.parse`) are modelled by the inductive `Json`; JavaScript
objects are association lists of (key, value) pairs in insertion order, which
is what drives both the spread-update semantics of the enrichers and the
`Object.keys` column order of the CSV exporter.  `JSON.parse` itself is a
JavaScript built-in, not repository code, so the pipelines take an arbitrary
`parse : List Char → Option Json` oracle (`none` models a parse exception).
The ambient clock (`Date.now()`, `toISOString`), the `Math.random()` draws and
the transport response are likewise oracle parameters of the pipeline.
-/

/-- JSON values as produced by `JSON.parse`.  Objects keep their fields as an
association list in insertion order; numbers are modelled as integers (the
only numbers the enrichers produce are `0`). -/
inductive Json where
  | null : Json
  | bool (b : Bool) : Json
  | num (n : Int) : Json
  | str (s : List Char) : Json
  | arr (elems : List Json) : Json
  | obj (fields : List (List Char × Json)) : Json

instance : Inhabited Json := ⟨Json.null⟩

/-- A JavaScript object value: fields in insertion order. -/
abbrev JObj := List (List Char × Json)

/-- Property lookup `o[k]` on a JavaScript object: first matching key. -/
def lookupField : JObj → List Char → Option Json
  | [], _ => none
  | (k, v) :: rest, key => if k = key then some v else lookupField rest key

/-- Property write in an object literal with spread (`{...p, k: v}`): if the
key is already present its value is replaced in place (the key keeps its
original position in insertion order), otherwise the key is appended. -/
def setField : JObj → List Char → Json → JObj
  | [], key, v => [(key, v)]
  | (k, w) :: rest, key, v =>
      if k = key then (k, v) :: rest else (k, w) :: setField rest key v

/-- `Object.keys`: the keys of an object in insertion order. -/
def keys (o : JObj) : List (List Char) := o.map Prod.fst

/-- The key list of a JSON value: the keys of an object, `[]` otherwise. -/
def jsonKeys : Json → List (List Char)
  | Json.obj fields => keys fields
  | _ => []

/-- `String.prototype.indexOf` for a single character: the position of the
first occurrence, or `none` (JavaScript returns `-1`). -/
def indexOfChar (c : Char) : List Char → Option Nat
  | [] => none
  | x :: xs => if x = c then some 0 else (indexOfChar c xs).map (· + 1)

/-- `String.prototype.lastIndexOf` for a single character: the position of the
last occurrence, or `none` (JavaScript returns `-1`). -/
def lastIndexOfChar (c : Char) : List Char → Option Nat
  | [] => none
  | x :: xs =>
      match lastIndexOfChar c xs with
      | some i => some (i + 1)
      | none => if x = c then some 0 else none

/-- `extractJsonArrayString` from `src/services/geminiService.ts` (the buyer
service file contains an identical copy): locate the first `[` and the last
`]`; if both exist and the `]` is strictly after the `[`, return
`text.substring(startIndex, endIndex + 1)`, otherwise `null`. -/
def extractJsonArrayString (text : List Char) : Option (List Char) :=
  match indexOfChar '[' text, lastIndexOfChar ']' text with
  | some startIndex, some endIndex =>
      if startIndex < endIndex then
        some ((text.drop startIndex).take (endIndex + 1 - startIndex))
      else none
  | some _, none => none
  | none, _ => none

/-- The character class of the JavaScript regular-expression `\s` (restricted
to the code points that can realistically occur here: ASCII whitespace, NBSP
and the BOM). -/
def isJsWhitespace (c : Char) : Bool :=
  c = ' ' || c = '\t' || c = '\n' || c = '\r' ||
    c = Char.ofNat 11 || c = Char.ofNat 12 || c = Char.ofNat 160 ||
    c = Char.ofNat 65279

/-- `String.prototype.toLowerCase`, character by character. -/
def toLowerStr (s : List Char) : List Char := s.map Char.toLower

/-- Worker for `collapseWs`: the flag records whether the previous character
was whitespace (i.e. whether we are inside a run that has already emitted its
separator). -/
def collapseWsAux : Bool → List Char → List Char
  | _, [] => []
  | inRun, c :: cs =>
      if isJsWhitespace c then
        if inRun then collapseWsAux true cs else '.' :: collapseWsAux true cs
      else c :: collapseWsAux false cs

/-- `s.replace(/\s+/g, '.')`: every maximal run of whitespace characters is
replaced by a single `'.'`. -/
def collapseWs (s : List Char) : List Char := collapseWsAux false s

/-- Worker for `natChars`; the fuel argument makes the recursion structural
(any fuel with `n < 10 ^ fuel` yields the full decimal numeral). -/
def natCharsAux : Nat → Nat → List Char
  | 0, _ => []
  | fuel + 1, n =>
      if n < 10 then [Nat.digitChar n]
      else natCharsAux fuel (n / 10) ++ [Nat.digitChar (n % 10)]

/-- The decimal numeral of a natural number, as JavaScript renders it inside
a template literal (`${Date.now()}`, `${index}`). -/
def natChars (n : Nat) : List Char := natCharsAux (n + 1) n

/-- Decimal rendering of an integer (`String(value)` for a number). -/
def intChars (n : Int) : List Char :=
  if n < 0 then '-' :: natChars n.natAbs else natChars n.toNat

/-- Numeric value of a decimal digit character (used to parse numerals back
when proving that `natChars` is injective). -/
def charDigit (c : Char) : Nat := c.toNat - 48

/-- Reads a decimal numeral back into a natural number. -/
def ofNatChars (l : List Char) : Nat :=
  l.foldl (fun acc c => acc * 10 + charDigit c) 0

/-- The `uid` template of the photographer enricher:
`photographer-ibadan-${Date.now()}-${index}`. -/
def photographerUid (now i : Nat) : List Char :=
  "photographer-ibadan-".data ++ natChars now ++ "-".data ++ natChars i

/-- The `uid` template of the buyer enricher:
`buyer-lagos-${Date.now()}-${index}`. -/
def buyerUid (now i : Nat) : List Char :=
  "buyer-lagos-".data ++ natChars now ++ "-".data ++ natChars i

/-- The `email` template shared by both enrichers:
`${p.fullName.toLowerCase().replace(/\s+/g, '.')}.${index}@test.com`. -/
def emailFor (name : List Char) (i : Nat) : List Char :=
  collapseWs (toLowerStr name) ++ ".".data ++ natChars i ++ "@test.com".data

/-- Whether `p.fullName.toLowerCase()` evaluates without throwing: `p` must be
an object whose `fullName` property is a string. -/
def hasStringFullName (p : Json) : Bool :=
  match p with
  | Json.obj fields =>
      match lookupField fields "fullName".data with
      | some (Json.str _) => true
      | _ => false
  | _ => false

/-- The element shape the prompt requests from the model for photographers:
an object carrying `fullName` (as a string, which is also what the enricher
needs to avoid throwing), `portfolioImageUrl` and `specialty`. -/
def requiredPhotographerFields (p : Json) : Bool :=
  match p with
  | Json.obj fields =>
      (match lookupField fields "fullName".data with
        | some (Json.str _) => true
        | _ => false) &&
      (lookupField fields "portfolioImageUrl".data).isSome &&
      (lookupField fields "specialty".data).isSome
  | _ => false

/-- The element shape the prompt requests from the model for buyers: an
object carrying `fullName` (as a string), `portfolioImageUrl`, `Interest`
and `Address`. -/
def requiredBuyerFields (p : Json) : Bool :=
  match p with
  | Json.obj fields =>
      (match lookupField fields "fullName".data with
        | some (Json.str _) => true
        | _ => false) &&
      (lookupField fields "portfolioImageUrl".data).isSome &&
      (lookupField fields "Interest".data).isSome &&
      (lookupField fields "Address".data).isSome
  | _ => false

/-- Two parsed elements have the same set of property keys. -/
def sameKeySet (p q : Json) : Bool :=
  (jsonKeys p).all (fun k => decide (k ∈ jsonKeys q)) &&
    (jsonKeys q).all (fun k => decide (k ∈ jsonKeys p))

/-- All elements of a parsed array have pairwise equal key sets. -/
def pairwiseSameKeys (xs : List Json) : Bool :=
  xs.all (fun p => xs.all (fun q => sameKeySet p q))

/-- One step of the photographer enricher's `.map((p, index) => ({...p, uid,
email, role, isFeatured, city, createdAt, earnings, walletBalance}))`.
`none` models the `TypeError` thrown by `p.fullName.toLowerCase()` when `p`
is not an object with a string `fullName` (the exception that the service's
`catch` block converts into the malformed-data error). -/
def enrichPhotographer (now : Nat) (createdAt : List Char) (featured : Bool)
    (i : Nat) (p : Json) : Option JObj :=
  match p with
  | Json.obj fields =>
      match lookupField fields "fullName".data with
      | some (Json.str name) =>
          some (setField (setField (setField (setField (setField (setField
            (setField (setField fields
              "uid".data (Json.str (photographerUid now i)))
              "email".data (Json.str (emailFor name i)))
              "role".data (Json.str "photographer".data))
              "isFeatured".data (Json.bool featured))
              "city".data (Json.str "Ibadan".data))
              "createdAt".data (Json.str createdAt))
              "earnings".data (Json.num 0))
              "walletBalance".data (Json.num 0))
      | _ => none
  | _ => none

/-- The photographer enricher applied along the parsed array starting at
index `i`.  The map callback samples `Date.now()`, `p.fullName...`,
`Math.random()` and `new Date().toISOString()` once per record, so the
clock (`nowAt`), the ISO timestamp (`createdAtAt`) and the random draw
(`feat`) are all per-index oracles.  A `none` for any element aborts the
whole map, as the thrown exception does. -/
def enrichPhotographerList (nowAt : Nat → Nat) (createdAtAt : Nat → List Char)
    (feat : Nat → Bool) : Nat → List Json → Option (List JObj)
  | _, [] => some []
  | i, p :: ps =>
      match enrichPhotographer (nowAt i) (createdAtAt i) (feat i) i p with
      | none => none
      | some r =>
          match enrichPhotographerList nowAt createdAtAt feat (i + 1) ps with
          | none => none
          | some rs => some (r :: rs)

/-- One step of the buyer enricher's `.map((p, index) => ({...p, uid, email,
role, city, createdAt, walletBalance}))` (no `isFeatured`, no `earnings`). -/
def enrichBuyer (now : Nat) (createdAt : List Char) (i : Nat) (p : Json) :
    Option JObj :=
  match p with
  | Json.obj fields =>
      match lookupField fields "fullName".data with
      | some (Json.str name) =>
          some (setField (setField (setField (setField (setField (setField
            fields
              "uid".data (Json.str (buyerUid now i)))
              "email".data (Json.str (emailFor name i)))
              "role".data (Json.str "buyer".data))
              "city".data (Json.str "Lagos".data))
              "createdAt".data (Json.str createdAt))
              "walletBalance".data (Json.num 0))
      | _ => none
  | _ => none

/-- The buyer enricher applied along the parsed array starting at index `i`;
as in the photographer variant, `Date.now()` and `toISOString()` are sampled
once per record, hence the per-index oracles. -/
def enrichBuyerList (nowAt : Nat → Nat) (createdAtAt : Nat → List Char) :
    Nat → List Json → Option (List JObj)
  | _, [] => some []
  | i, p :: ps =>
      match enrichBuyer (nowAt i) (createdAtAt i) i p with
      | none => none
      | some r =>
          match enrichBuyerList nowAt createdAtAt (i + 1) ps with
          | none => none
          | some rs => some (r :: rs)

/-- The error taxonomy of the two services: missing `API_KEY`, extraction
returning `null`, and the single malformed-data message produced by the
`catch` block (which covers a `JSON.parse` throw, the explicit
"not an array" throw, and any throw inside the enrichment map). -/
inductive GenError where
  | configMissing : GenError
  | extractionMiss : GenError
  | formatError : GenError

/-- What the `ai.models.generateContent` response contributes to the
pipeline: the raw text and the optional grounding-chunk metadata
(`response.candidates?.[0]?.groundingMetadata?.groundingChunks`). -/
structure GenResponse where
  text : List Char
  grounding : Option (List Json)

/-- `generatePhotographerData` from `src/services/geminiService.ts`.
`apiKey` models `process.env.API_KEY`; `response` is the transport's answer
to the single outbound request; `parse` is the `JSON.parse` oracle; `nowAt`,
`createdAtAt` and `feat` model the per-record `Date.now()`,
`new Date().toISOString()` and `Math.random() < 0.2` samples taken inside
the enrichment map.  The second component counts the outbound requests
issued. -/
def generatePhotographerData (apiKey : Option (List Char))
    (response : GenResponse) (parse : List Char → Option Json)
    (nowAt : Nat → Nat) (createdAtAt : Nat → List Char)
    (feat : Nat → Bool) :
    Except GenError (List JObj × List Json) × Nat :=
  match apiKey with
  | none => (Except.error GenError.configMissing, 0)
  | some _ =>
      match extractJsonArrayString response.text with
      | none => (Except.error GenError.extractionMiss, 1)
      | some jsonString =>
          match parse jsonString with
          | none => (Except.error GenError.formatError, 1)
          | some (Json.arr parsedData) =>
              match enrichPhotographerList nowAt createdAtAt feat 0
                  parsedData with
              | none => (Except.error GenError.formatError, 1)
              | some enriched =>
                  (Except.ok (enriched, response.grounding.getD []), 1)
          | some _ => (Except.error GenError.formatError, 1)

/-- `generateBuyerData` from the buyer-variant service file; identical
pipeline shape, buyer enrichment. -/
def generateBuyerData (apiKey : Option (List Char)) (response : GenResponse)
    (parse : List Char → Option Json) (nowAt : Nat → Nat)
    (createdAtAt : Nat → List Char) :
    Except GenError (List JObj × List Json) × Nat :=
  match apiKey with
  | none => (Except.error GenError.configMissing, 0)
  | some _ =>
      match extractJsonArrayString response.text with
      | none => (Except.error GenError.extractionMiss, 1)
      | some jsonString =>
          match parse jsonString with
          | none => (Except.error GenError.formatError, 1)
          | some (Json.arr parsedData) =>
              match enrichBuyerList nowAt createdAtAt 0 parsedData with
              | none => (Except.error GenError.formatError, 1)
              | some enriched =>
                  (Except.ok (enriched, response.grounding.getD []), 1)
          | some _ => (Except.error GenError.formatError, 1)

/-- JavaScript `Array.prototype.join(sep)` for lists of characters. -/
def joinWith (sep : List Char) : List (List Char) → List Char
  | [] => []
  | [l] => l
  | l :: ls => l ++ sep ++ joinWith sep ls

/-- `String(value)`: the default string conversion the CSV exporter applies
to non-string values.  Arrays render as JavaScript's
`Array.prototype.toString` (elements joined by commas, `null` rendering
empty); plain objects render as `[object Object]`. -/
def stringValue : Json → List Char
  | Json.null => "null".data
  | Json.bool b => if b then "true".data else "false".data
  | Json.num n => intChars n
  | Json.str s => s
  | Json.obj _ => "[object Object]".data
  | Json.arr xs =>
      joinWith ",".data
        (xs.attach.map (fun e =>
          match e with
          | ⟨Json.null, _⟩ => []
          | ⟨v, hv⟩ => stringValue v))
termination_by v => sizeOf v
decreasing_by
  all_goals
    have hlt := List.sizeOf_lt_of_mem hv
    simp only [Json.arr.sizeOf_spec]
    omega

/-- `row[header]` rendered as a string: a missing property is `undefined` and
`String(undefined)` is `"undefined"`. -/
def renderCell (row : JObj) (header : List Char) : List Char :=
  match lookupField row header with
  | some v => stringValue v
  | none => "undefined".data

/-- `stringValue.replace(/"/g, '""')`: double every double-quote character. -/
def doubleQuotes : List Char → List Char
  | [] => []
  | c :: cs =>
      if c = '\"' then '\"' :: '\"' :: doubleQuotes cs
      else c :: doubleQuotes cs

/-- A CSV cell: the escaped value wrapped in double quotes. -/
def quoteField (s : List Char) : List Char :=
  '\"' :: (doubleQuotes s ++ ['\"'])

/-- One data row of the CSV: each header's cell, quoted, joined by commas. -/
def csvRowLine (headers : List (List Char)) (row : JObj) : List Char :=
  joinWith ",".data (headers.map (fun h => quoteField (renderCell row h)))

/-- The `csvContent` string built by `handleDownloadCsv` for a non-empty
record list `r0 :: rest`: the header row (`Object.keys` of the first record,
joined by commas, unquoted) followed by one quoted data row per record, all
joined by `'\n'`. -/
def csvContentOf (r0 : JObj) (rest : List JObj) : List Char :=
  joinWith ['\n']
    (joinWith ",".data (keys r0) :: (r0 :: rest).map (csvRowLine (keys r0)))

namespace AppPhotographers

/-- `handleDownloadCsv` from the photographer `App.tsx`: `none` models the
early `return` (no download is triggered); `some (filename, content)` models
the triggered download of `content` under `filename`.  `dateStr` stands for
`new Date().toISOString().split('T')[0]`. -/
def handleDownloadCsv (photographers : Option (List JObj))
    (dateStr : List Char) : Option (List Char × List Char) :=
  match photographers with
  | none => none
  | some [] => none
  | some (r0 :: rest) =>
      some ("ibadan_photographers_".data ++ dateStr ++ ".csv".data,
        csvContentOf r0 rest)

end AppPhotographers

namespace AppBuyers

/-- `handleDownloadCsv` from the buyer `App.tsx`: identical serialization,
buyer-specific filename. -/
def handleDownloadCsv (buyers : Option (List JObj)) (dateStr : List Char) :
    Option (List Char × List Char) :=
  match buyers with
  | none => none
  | some [] => none
  | some (r0 :: rest) =>
      some ("lagos_photo_buyers_".data ++ dateStr ++ ".csv".data,
        csvContentOf r0 rest)

end AppBuyers

/-- Splitting a character list at every occurrence of `c` (the semantics of
`text.split(c)`). -/
def splitOnChar (c : Char) : List Char → List (List Char)
  | [] => [[]]
  | x :: xs =>
      if x = c then [] :: splitOnChar c xs
      else
        match splitOnChar c xs with
        | [] => [[x]]
        | l :: ls => (x :: l) :: ls

/-- The quote-aware field count of one CSV line: one more than the number of
commas that occur outside double quotes.  The flag tracks whether the scan is
currently inside a quoted region. -/
def countFields : List Char → Bool → Nat
  | [], _ => 1
  | c :: rest, insideQuotes =>
      if c = '\"' then countFields rest (!insideQuotes)
      else if c = ',' then
        if insideQuotes then countFields rest true
        else 1 + countFields rest false
      else countFields rest insideQuotes

/-- Standard CSV unescaping of a field body: collapse every doubled double
quote into a single one. -/
def collapseDoubled : List Char → List Char
  | [] => []
  | [c] => [c]
  | c1 :: c2 :: rest =>
      if c1 = '\"' && c2 = '\"' then '\"' :: collapseDoubled rest
      else c1 :: collapseDoubled (c2 :: rest)

/-- Standard CSV unescaping of a whole exported cell: strip the surrounding
quotes and collapse doubled quotes in the body. -/
def csvUnquote (f : List Char) : List Char :=
  collapseDoubled (List.dropLast (f.drop 1))

/-- `i` is the position of the first occurrence of `c` in `l` (the
specification-level reading of "first occurrence of `[`"): position `i`
holds `c` and no earlier position does. -/
def isFirstOcc (c : Char) (l : List Char) (i : Nat) : Prop :=
  l.get? i = some c ∧ c ∉ l.take i

/-- `i` is the position of the last occurrence of `c` in `l` (the
specification-level reading of "last occurrence of `]`"): position `i`
holds `c` and no later position does. -/
def isLastOcc (c : Char) (l : List Char) (i : Nat) : Prop :=
  l.get? i = some c ∧ c ∉ l.drop (i + 1)

example : hasStringFullName (Json.obj [("fullName".data, Json.str "A".data)]) = true := by
  decide

theorem lookupField_setField_self (o : JObj) (k : List Char) (v : Json) :
    lookupField (setField o k v) k = some v := by
  induction o with
  | nil => simp [setField, lookupField]
  | cons entry rest ih =>
      obtain ⟨k0, w⟩ := entry
      by_cases hk : k0 = k
      · simp [setField, hk, lookupField]
      · simp [setField, hk, lookupField, ih]

theorem lookupField_setField_ne (o : JObj) (k k' : List Char) (v : Json)
    (h : k ≠ k') : lookupField (setField o k v) k' = lookupField o k' := by
  induction o with
  | nil => simp [setField, lookupField, h]
  | cons entry rest ih =>
      obtain ⟨k0, w⟩ := entry
      by_cases hk : k0 = k
      · subst hk
        simp only [setField, if_pos rfl, lookupField]
        rw [if_neg h, if_neg h]
      · simp only [setField, if_neg hk, lookupField]
        by_cases hk' : k0 = k'
        · rw [if_pos hk', if_pos hk']
        · rw [if_neg hk', if_neg hk', ih]

theorem mem_keys_setField (o : JObj) (k k' : List Char) (v : Json) :
    k' ∈ keys (setField o k v) ↔ k' ∈ keys o ∨ k' = k := by
  induction o with
  | nil => simp [setField, keys]
  | cons entry rest ih =>
      obtain ⟨k0, w⟩ := entry
      by_cases hk : k0 = k
      · subst hk
        have hset : setField ((k0, w) :: rest) k0 v = (k0, v) :: rest := by
          simp [setField]
        rw [hset]
        simp only [keys, List.map_cons, List.mem_cons]
        constructor
        · rintro (h | h)
          · exact Or.inl (Or.inl h)
          · exact Or.inl (Or.inr h)
        · rintro ((h | h) | h)
          · exact Or.inl h
          · exact Or.inr h
          · exact Or.inl h
      · simp only [setField, if_neg hk, keys, List.map_cons, List.mem_cons]
        simp only [keys] at ih
        rw [ih]
        constructor
        · rintro (h | h | h)
          · exact Or.inl (Or.inl h)
          · exact Or.inl (Or.inr h)
          · exact Or.inr h
        · rintro ((h | h) | h)
          · exact Or.inl h
          · exact Or.inr (Or.inl h)
          · exact Or.inr (Or.inr h)

theorem indexOfChar_none_iff (c : Char) (l : List Char) :
    indexOfChar c l = none ↔ c ∉ l := by
  induction l with
  | nil => simp [indexOfChar]
  | cons x xs ih =>
      by_cases hx : x = c
      · subst hx
        simp [indexOfChar]
      · simp [indexOfChar, hx, ih, Ne.symm hx]

theorem indexOfChar_some_iff (c : Char) (l : List Char) (i : Nat) :
    indexOfChar c l = some i ↔ isFirstOcc c l i := by
  induction l generalizing i with
  | nil => simp [indexOfChar, isFirstOcc]
  | cons x xs ih =>
      by_cases hx : x = c
      · subst hx
        cases i with
        | zero => simp [indexOfChar, isFirstOcc]
        | succ n =>
            simp [indexOfChar, isFirstOcc]
      · cases i with
        | zero =>
            simp [indexOfChar, hx, isFirstOcc, Ne.symm hx]
        | succ n =>
            simp only [indexOfChar, if_neg hx, isFirstOcc, List.get?_cons_succ,
              List.take_succ_cons, List.mem_cons, not_or]
            rw [show Option.map (· + 1) (indexOfChar c xs) = some (n + 1) ↔
                indexOfChar c xs = some n by
              cases h : indexOfChar c xs <;> simp <;> omega]
            rw [ih n]
            simp [isFirstOcc, Ne.symm hx]

theorem lastIndexOfChar_none_iff (c : Char) (l : List Char) :
    lastIndexOfChar c l = none ↔ c ∉ l := by
  induction l with
  | nil => simp [lastIndexOfChar]
  | cons x xs ih =>
      simp only [lastIndexOfChar]
      cases hxs : lastIndexOfChar c xs with
      | some i =>
          simp only [List.mem_cons, not_or]
          constructor
          · intro h
            cases h
          · rintro ⟨-, hmem⟩
            rw [ih.mpr hmem] at hxs
            cases hxs
      | none =>
          have hmem := ih.mp hxs
          by_cases hx : x = c
          · subst hx
            simp
          · simp [hx, Ne.symm hx, hmem]

theorem charDigit_digitChar : ∀ d < 10, charDigit (Nat.digitChar d) = d := by
  decide

theorem foldl_natCharsAux (fuel : Nat) : ∀ n acc, n < 10 ^ fuel →
    List.foldl (fun a c => a * 10 + charDigit c) acc (natCharsAux fuel n)
      = acc * 10 ^ (natCharsAux fuel n).length + n := by
  induction fuel with
  | zero =>
      intro n acc h
      have hn : n = 0 := by simpa using h
      subst hn
      simp [natCharsAux]
  | succ f ih =>
      intro n acc h
      by_cases h10 : n < 10
      · simp [natCharsAux, h10, charDigit_digitChar n h10]
      · have hdiv : n / 10 < 10 ^ f := by
          apply Nat.div_lt_of_lt_mul
          rw [pow_succ] at h
          exact h.trans_eq (by ring)
        have hmod : n % 10 < 10 := Nat.mod_lt _ (by norm_num)
        simp only [natCharsAux, if_neg h10, List.foldl_append, List.foldl_cons,
          List.foldl_nil, List.length_append, List.length_cons,
          List.length_nil]
        rw [ih (n / 10) acc hdiv]
        rw [charDigit_digitChar (n % 10) hmod]
        have hsplit : n / 10 * 10 + n % 10 = n := Nat.div_add_mod' n 10
        calc (acc * 10 ^ (natCharsAux f (n / 10)).length + n / 10) * 10 + n % 10
            = acc * (10 ^ (natCharsAux f (n / 10)).length * 10) +
                (n / 10 * 10 + n % 10) := by ring
          _ = acc * 10 ^ ((natCharsAux f (n / 10)).length + (0 + 1)) + n := by
              rw [hsplit]
              simp only [Nat.zero_add]
              rw [pow_succ]

theorem ofNatChars_natChars (n : Nat) : ofNatChars (natChars n) = n := by
  have hlt : n < 10 ^ (n + 1) := by
    calc n < 10 ^ n := Nat.lt_pow_self (by norm_num) n
      _ ≤ 10 ^ (n + 1) := Nat.pow_le_pow_right (by norm_num) (Nat.le_succ n)
  unfold ofNatChars natChars
  rw [foldl_natCharsAux (n + 1) n 0 hlt]
  simp

theorem natChars_injective {m n : Nat} (h : natChars m = natChars n) :
    m = n := by
  have h2 := congrArg ofNatChars h
  rwa [ofNatChars_natChars, ofNatChars_natChars] at h2

theorem digitChar_ne_dash (n : Nat) : Nat.digitChar n ≠ '-' := by
  rcases Nat.lt_or_ge n 16 with h | h
  · interval_cases n <;> decide
  · have h0 : ¬ n = 0 := by omega
    have h1 : ¬ n = 1 := by omega
    have h2 : ¬ n = 2 := by omega
    have h3 : ¬ n = 3 := by omega
    have h4 : ¬ n = 4 := by omega
    have h5 : ¬ n = 5 := by omega
    have h6 : ¬ n = 6 := by omega
    have h7 : ¬ n = 7 := by omega
    have h8 : ¬ n = 8 := by omega
    have h9 : ¬ n = 9 := by omega
    have h10 : ¬ n = 10 := by omega
    have h11 : ¬ n = 11 := by omega
    have h12 : ¬ n = 12 := by omega
    have h13 : ¬ n = 13 := by omega
    have h14 : ¬ n = 14 := by omega
    have h15 : ¬ n = 15 := by omega
    have hstar : Nat.digitChar n = '*' := by
      unfold Nat.digitChar
      rw [if_neg h0, if_neg h1, if_neg h2, if_neg h3, if_neg h4, if_neg h5,
        if_neg h6, if_neg h7, if_neg h8, if_neg h9, if_neg h10, if_neg h11,
        if_neg h12, if_neg h13, if_neg h14, if_neg h15]
    rw [hstar]
    decide

theorem dash_not_mem_natCharsAux :
    ∀ fuel n, ('-' : Char) ∉ natCharsAux fuel n := by
  intro fuel
  induction fuel with
  | zero => intro n; simp [natCharsAux]
  | succ f ih =>
      intro n
      by_cases h10 : n < 10
      · simp only [natCharsAux, if_pos h10, List.mem_singleton]
        exact fun h => digitChar_ne_dash n h.symm
      · simp only [natCharsAux, if_neg h10, List.mem_append,
          List.mem_singleton, not_or]
        exact ⟨ih (n / 10), fun h => digitChar_ne_dash (n % 10) h.symm⟩

theorem dash_not_mem_natChars (n : Nat) : ('-' : Char) ∉ natChars n :=
  dash_not_mem_natCharsAux (n + 1) n

/-- A string of the shape `a-b` with `a` and `b` dash-free on the left of
the (unique) dash decomposes uniquely: used to separate the timestamp
segment of a uid from its index segment even when the two records carry
different timestamps. -/
theorem append_dash_inj : ∀ a c b d : List Char, ('-' : Char) ∉ a →
    ('-' : Char) ∉ c → a ++ '-' :: b = c ++ '-' :: d → a = c ∧ b = d := by
  intro a
  induction a with
  | nil =>
      intro c b d _ hc h
      cases c with
      | nil =>
          simp only [List.nil_append] at h
          injection h with _ h2
          exact ⟨rfl, h2⟩
      | cons y c' =>
          simp only [List.nil_append, List.cons_append] at h
          injection h with h1 _
          exact absurd (by simp [← h1]) hc
  | cons x a' ih =>
      intro c b d ha hc h
      cases c with
      | nil =>
          simp only [List.cons_append, List.nil_append] at h
          injection h with h1 _
          exact absurd (by simp [h1]) ha
      | cons y c' =>
          simp only [List.cons_append] at h
          injection h with h1 h2
          have ha' : ('-' : Char) ∉ a' := fun hm =>
            ha (List.mem_cons_of_mem x hm)
          have hc' : ('-' : Char) ∉ c' := fun hm =>
            hc (List.mem_cons_of_mem y hm)
          rcases ih c' b d ha' hc' h2 with ⟨hac, hbd⟩
          exact ⟨by rw [h1, hac], hbd⟩

theorem enrichPhotographer_eq_some (now : Nat) (createdAt : List Char)
    (featured : Bool) (i : Nat) (p : Json) (r : JObj) :
    enrichPhotographer now createdAt featured i p = some r ↔
      ∃ fields name, p = Json.obj fields ∧
        lookupField fields "fullName".data = some (Json.str name) ∧
        r = setField (setField (setField (setField (setField (setField
          (setField (setField fields
            "uid".data (Json.str (photographerUid now i)))
            "email".data (Json.str (emailFor name i)))
            "role".data (Json.str "photographer".data))
            "isFeatured".data (Json.bool featured))
            "city".data (Json.str "Ibadan".data))
            "createdAt".data (Json.str createdAt))
            "earnings".data (Json.num 0))
            "walletBalance".data (Json.num 0) := by
  cases p with
  | obj fields =>
      cases hlook : lookupField fields "fullName".data with
      | none => simp [enrichPhotographer, hlook]
      | some v => cases v <;> simp [enrichPhotographer, hlook, eq_comm]
  | null => simp [enrichPhotographer]
  | bool b => simp [enrichPhotographer]
  | num n => simp [enrichPhotographer]
  | str s => simp [enrichPhotographer]
  | arr xs => simp [enrichPhotographer]

theorem enrichPhotographer_lookups (now : Nat) (createdAt : List Char)
    (featured : Bool) (i : Nat) (fields : JObj) (name : List Char) (r : JObj)
    (hname : lookupField fields "fullName".data = some (Json.str name))
    (h : enrichPhotographer now createdAt featured i (Json.obj fields) =
      some r) :
    lookupField r "uid".data = some (Json.str (photographerUid now i)) ∧
    lookupField r "email".data = some (Json.str (emailFor name i)) ∧
    lookupField r "earnings".data = some (Json.num 0) ∧
    lookupField r "walletBalance".data = some (Json.num 0) := by
  rcases (enrichPhotographer_eq_some now createdAt featured i _ r).mp h with
    ⟨fields', name', heq, hname', hr⟩
  injection heq with heqf
  subst heqf
  rw [hname] at hname'
  injection hname' with hv
  injection hv with hn
  subst hn
  subst hr
  refine ⟨?_, ?_, ?_, ?_⟩
  · rw [lookupField_setField_ne _ _ _ _ (by decide),
      lookupField_setField_ne _ _ _ _ (by decide),
      lookupField_setField_ne _ _ _ _ (by decide),
      lookupField_setField_ne _ _ _ _ (by decide),
      lookupField_setField_ne _ _ _ _ (by decide),
      lookupField_setField_ne _ _ _ _ (by decide),
      lookupField_setField_ne _ _ _ _ (by decide),
      lookupField_setField_self]
  · rw [lookupField_setField_ne _ _ _ _ (by decide),
      lookupField_setField_ne _ _ _ _ (by decide),
      lookupField_setField_ne _ _ _ _ (by decide),
      lookupField_setField_ne _ _ _ _ (by decide),
      lookupField_setField_ne _ _ _ _ (by decide),
      lookupField_setField_ne _ _ _ _ (by decide),
      lookupField_setField_self]
  · rw [lookupField_setField_ne _ _ _ _ (by decide),
      lookupField_setField_self]
  · rw [lookupField_setField_self]

theorem enrichPhotographer_none (now : Nat) (createdAt : List Char)
    (featured : Bool) (i : Nat) (p : Json)
    (h : hasStringFullName p = false) :
    enrichPhotographer now createdAt featured i p = none := by
  cases p with
  | obj fields =>
      cases hlook : lookupField fields "fullName".data with
      | none => simp [enrichPhotographer, hlook]
      | some v =>
          cases v <;>
            simp [enrichPhotographer, hasStringFullName, hlook] at h ⊢
  | null => simp [enrichPhotographer]
  | bool b => simp [enrichPhotographer]
  | num n => simp [enrichPhotographer]
  | str s => simp [enrichPhotographer]
  | arr xs => simp [enrichPhotographer]

theorem enrichPhotographer_isSome (now : Nat) (createdAt : List Char)
    (featured : Bool) (i : Nat) (p : Json)
    (h : hasStringFullName p = true) :
    (enrichPhotographer now createdAt featured i p).isSome = true := by
  cases p with
  | obj fields =>
      cases hlook : lookupField fields "fullName".data with
      | none => simp [hasStringFullName, hlook] at h
      | some v =>
          cases v <;> simp [hasStringFullName, hlook] at h <;>
            simp [enrichPhotographer, hlook]
  | null => simp [hasStringFullName] at h
  | bool b => simp [hasStringFullName] at h
  | num n => simp [hasStringFullName] at h
  | str s => simp [hasStringFullName] at h
  | arr xs => simp [hasStringFullName] at h

theorem mem_keys_enrichPhotographer (now : Nat) (createdAt : List Char)
    (featured : Bool) (i : Nat) (fields : JObj) (r : JObj)
    (h : enrichPhotographer now createdAt featured i (Json.obj fields) =
      some r) (k : List Char) :
    k ∈ keys r ↔
      (k ∈ keys fields ∨ k = "uid".data ∨ k = "email".data ∨
        k = "role".data ∨ k = "isFeatured".data ∨ k = "city".data ∨
        k = "createdAt".data ∨ k = "earnings".data ∨
        k = "walletBalance".data) := by
  rcases (enrichPhotographer_eq_some now createdAt featured i _ r).mp h with
    ⟨fields', name', heq, -, hr⟩
  injection heq with heqf
  subst heqf
  subst hr
  simp only [mem_keys_setField]
  tauto

theorem enrichPhotographerList_length (nowAt : Nat → Nat)
    (createdAtAt : Nat → List Char) (feat : Nat → Bool) :
    ∀ xs i rs, enrichPhotographerList nowAt createdAtAt feat i xs = some rs →
      rs.length = xs.length := by
  intro xs
  induction xs with
  | nil =>
      intro i rs h
      simp [enrichPhotographerList] at h
      simp [← h]
  | cons p ps ih =>
      intro i rs h
      simp only [enrichPhotographerList] at h
      cases h1 : enrichPhotographer (nowAt i) (createdAtAt i) (feat i) i p with
      | none => rw [h1] at h; cases h
      | some r =>
          rw [h1] at h
          cases h2 : enrichPhotographerList nowAt createdAtAt feat (i + 1)
              ps with
          | none => rw [h2] at h; cases h
          | some rs' =>
              rw [h2] at h
              injection h with h3
              subst h3
              simp [ih (i + 1) rs' h2]

theorem enrichPhotographerList_get? (nowAt : Nat → Nat)
    (createdAtAt : Nat → List Char) (feat : Nat → Bool) :
    ∀ xs i0 rs, enrichPhotographerList nowAt createdAtAt feat i0 xs =
        some rs →
      ∀ k p, xs.get? k = some p →
        ∃ r, rs.get? k = some r ∧
          enrichPhotographer (nowAt (i0 + k)) (createdAtAt (i0 + k))
            (feat (i0 + k)) (i0 + k) p = some r := by
  intro xs
  induction xs with
  | nil =>
      intro i0 rs h k p hget
      simp at hget
  | cons q ps ih =>
      intro i0 rs h k p hget
      simp only [enrichPhotographerList] at h
      cases h1 : enrichPhotographer (nowAt i0) (createdAtAt i0) (feat i0) i0
          q with
      | none => rw [h1] at h; cases h
      | some r0 =>
          rw [h1] at h
          cases h2 : enrichPhotographerList nowAt createdAtAt feat (i0 + 1)
              ps with
          | none => rw [h2] at h; cases h
          | some rs' =>
              rw [h2] at h
              injection h with h3
              subst h3
              cases k with
              | zero =>
                  simp only [List.get?_cons_zero, Option.some.injEq] at hget
                  subst hget
                  exact ⟨r0, by simp, by simpa using h1⟩
              | succ m =>
                  simp only [List.get?_cons_succ] at hget
                  rcases ih (i0 + 1) rs' h2 m p hget with ⟨r, hr, henrich⟩
                  refine ⟨r, by simpa using hr, ?_⟩
                  have harith : i0 + 1 + m = i0 + (m + 1) := by omega
                  rw [harith] at henrich
                  exact henrich

theorem enrichPhotographerList_isSome (nowAt : Nat → Nat)
    (createdAtAt : Nat → List Char) (feat : Nat → Bool) :
    ∀ xs, (∀ p ∈ xs, hasStringFullName p = true) →
      ∀ i, (enrichPhotographerList nowAt createdAtAt feat i xs).isSome =
        true := by
  intro xs
  induction xs with
  | nil => intro _ i; simp [enrichPhotographerList]
  | cons p ps ih =>
      intro hall i
      have hp := hall p (List.mem_cons_self p ps)
      have hs := enrichPhotographer_isSome (nowAt i) (createdAtAt i) (feat i)
        i p hp
      cases h1 : enrichPhotographer (nowAt i) (createdAtAt i) (feat i) i p with
      | none => rw [h1] at hs; cases hs
      | some r =>
          have hps : ∀ q ∈ ps, hasStringFullName q = true := by
            intro q hq
            exact hall q (List.mem_cons_of_mem p hq)
          have := ih hps (i + 1)
          cases h2 : enrichPhotographerList nowAt createdAtAt feat (i + 1)
              ps with
          | none => rw [h2] at this; cases this
          | some rs' => simp [enrichPhotographerList, h1, h2]

theorem enrichPhotographerList_none_of_mem (nowAt : Nat → Nat)
    (createdAtAt : Nat → List Char) (feat : Nat → Bool) :
    ∀ xs p, p ∈ xs → hasStringFullName p = false →
      ∀ i, enrichPhotographerList nowAt createdAtAt feat i xs = none := by
  intro xs
  induction xs with
  | nil => intro p hp; cases hp
  | cons q ps ih =>
      intro p hp hbad i
      rcases List.mem_cons.mp hp with hq | hps
      · subst hq
        simp [enrichPhotographerList,
          enrichPhotographer_none (nowAt i) (createdAtAt i) (feat i) i p hbad]
      · simp only [enrichPhotographerList]
        cases h1 : enrichPhotographer (nowAt i) (createdAtAt i) (feat i) i
            q with
        | none => rfl
        | some r => simp [ih p hps hbad (i + 1)]

theorem enrichPhotographerList_mem (nowAt : Nat → Nat)
    (createdAtAt : Nat → List Char) (feat : Nat → Bool) :
    ∀ xs i rs, enrichPhotographerList nowAt createdAtAt feat i xs = some rs →
      ∀ r ∈ rs, ∃ p ∈ xs, ∃ j,
        enrichPhotographer (nowAt j) (createdAtAt j) (feat j) j p =
          some r := by
  intro xs
  induction xs with
  | nil =>
      intro i rs h r hr
      simp [enrichPhotographerList] at h
      subst h
      cases hr
  | cons q ps ih =>
      intro i rs h r hr
      simp only [enrichPhotographerList] at h
      cases h1 : enrichPhotographer (nowAt i) (createdAtAt i) (feat i) i q with
      | none => rw [h1] at h; cases h
      | some r0 =>
          rw [h1] at h
          cases h2 : enrichPhotographerList nowAt createdAtAt feat (i + 1)
              ps with
          | none => rw [h2] at h; cases h
          | some rs' =>
              rw [h2] at h
              injection h with h3
              subst h3
              rcases List.mem_cons.mp hr with hr0 | hr'
              · subst hr0
                exact ⟨q, List.mem_cons_self q ps, i, h1⟩
              · rcases ih (i + 1) rs' h2 r hr' with ⟨p, hpmem, j, hj⟩
                exact ⟨p, List.mem_cons_of_mem q hpmem, j, hj⟩

theorem enrichBuyer_eq_some (now : Nat) (createdAt : List Char) (i : Nat)
    (p : Json) (r : JObj) :
    enrichBuyer now createdAt i p = some r ↔
      ∃ fields name, p = Json.obj fields ∧
        lookupField fields "fullName".data = some (Json.str name) ∧
        r = setField (setField (setField (setField (setField (setField
          fields
            "uid".data (Json.str (buyerUid now i)))
            "email".data (Json.str (emailFor name i)))
            "role".data (Json.str "buyer".data))
            "city".data (Json.str "Lagos".data))
            "createdAt".data (Json.str createdAt))
            "walletBalance".data (Json.num 0) := by
  cases p with
  | obj fields =>
      cases hlook : lookupField fields "fullName".data with
      | none => simp [enrichBuyer, hlook]
      | some v => cases v <;> simp [enrichBuyer, hlook, eq_comm]
  | null => simp [enrichBuyer]
  | bool b => simp [enrichBuyer]
  | num n => simp [enrichBuyer]
  | str s => simp [enrichBuyer]
  | arr xs => simp [enrichBuyer]

theorem enrichBuyer_lookups (now : Nat) (createdAt : List Char) (i : Nat)
    (fields : JObj) (name : List Char) (r : JObj)
    (hname : lookupField fields "fullName".data = some (Json.str name))
    (h : enrichBuyer now createdAt i (Json.obj fields) = some r) :
    lookupField r "uid".data = some (Json.str (buyerUid now i)) ∧
    lookupField r "email".data = some (Json.str (emailFor name i)) ∧
    lookupField r "walletBalance".data = some (Json.num 0) ∧
    lookupField r "earnings".data = lookupField fields "earnings".data := by
  rcases (enrichBuyer_eq_some now createdAt i _ r).mp h with
    ⟨fields', name', heq, hname', hr⟩
  injection heq with heqf
  subst heqf
  rw [hname] at hname'
  injection hname' with hv
  injection hv with hn
  subst hn
  subst hr
  refine ⟨?_, ?_, ?_, ?_⟩
  · rw [lookupField_setField_ne _ _ _ _ (by decide),
      lookupField_setField_ne _ _ _ _ (by decide),
      lookupField_setField_ne _ _ _ _ (by decide),
      lookupField_setField_ne _ _ _ _ (by decide),
      lookupField_setField_ne _ _ _ _ (by decide),
      lookupField_setField_self]
  · rw [lookupField_setField_ne _ _ _ _ (by decide),
      lookupField_setField_ne _ _ _ _ (by decide),
      lookupField_setField_ne _ _ _ _ (by decide),
      lookupField_setField_ne _ _ _ _ (by decide),
      lookupField_setField_self]
  · rw [lookupField_setField_self]
  · rw [lookupField_setField_ne _ _ _ _ (by decide),
      lookupField_setField_ne _ _ _ _ (by decide),
      lookupField_setField_ne _ _ _ _ (by decide),
      lookupField_setField_ne _ _ _ _ (by decide),
      lookupField_setField_ne _ _ _ _ (by decide),
      lookupField_setField_ne _ _ _ _ (by decide)]

theorem enrichBuyer_none (now : Nat) (createdAt : List Char) (i : Nat)
    (p : Json) (h : hasStringFullName p = false) :
    enrichBuyer now createdAt i p = none := by
  cases p with
  | obj fields =>
      cases hlook : lookupField fields "fullName".data with
      | none => simp [enrichBuyer, hlook]
      | some v =>
          cases v <;> simp [enrichBuyer, hasStringFullName, hlook] at h ⊢
  | null => simp [enrichBuyer]
  | bool b => simp [enrichBuyer]
  | num n => simp [enrichBuyer]
  | str s => simp [enrichBuyer]
  | arr xs => simp [enrichBuyer]

theorem enrichBuyer_isSome (now : Nat) (createdAt : List Char) (i : Nat)
    (p : Json) (h : hasStringFullName p = true) :
    (enrichBuyer now createdAt i p).isSome = true := by
  cases p with
  | obj fields =>
      cases hlook : lookupField fields "fullName".data with
      | none => simp [hasStringFullName, hlook] at h
      | some v =>
          cases v <;> simp [hasStringFullName, hlook] at h <;>
            simp [enrichBuyer, hlook]
  | null => simp [hasStringFullName] at h
  | bool b => simp [hasStringFullName] at h
  | num n => simp [hasStringFullName] at h
  | str s => simp [hasStringFullName] at h
  | arr xs => simp [hasStringFullName] at h

theorem mem_keys_enrichBuyer (now : Nat) (createdAt : List Char) (i : Nat)
    (fields : JObj) (r : JObj)
    (h : enrichBuyer now createdAt i (Json.obj fields) = some r)
    (k : List Char) :
    k ∈ keys r ↔
      (k ∈ keys fields ∨ k = "uid".data ∨ k = "email".data ∨
        k = "role".data ∨ k = "city".data ∨ k = "createdAt".data ∨
        k = "walletBalance".data) := by
  rcases (enrichBuyer_eq_some now createdAt i _ r).mp h with
    ⟨fields', name', heq, -, hr⟩
  injection heq with heqf
  subst heqf
  subst hr
  simp only [mem_keys_setField]
  tauto

theorem enrichBuyerList_length (nowAt : Nat → Nat)
    (createdAtAt : Nat → List Char) :
    ∀ xs i rs, enrichBuyerList nowAt createdAtAt i xs = some rs →
      rs.length = xs.length := by
  intro xs
  induction xs with
  | nil =>
      intro i rs h
      simp [enrichBuyerList] at h
      simp [← h]
  | cons p ps ih =>
      intro i rs h
      simp only [enrichBuyerList] at h
      cases h1 : enrichBuyer (nowAt i) (createdAtAt i) i p with
      | none => rw [h1] at h; cases h
      | some r =>
          rw [h1] at h
          cases h2 : enrichBuyerList nowAt createdAtAt (i + 1) ps with
          | none => rw [h2] at h; cases h
          | some rs' =>
              rw [h2] at h
              injection h with h3
              subst h3
              simp [ih (i + 1) rs' h2]

theorem enrichBuyerList_get? (nowAt : Nat → Nat)
    (createdAtAt : Nat → List Char) :
    ∀ xs i0 rs, enrichBuyerList nowAt createdAtAt i0 xs = some rs →
      ∀ k p, xs.get? k = some p →
        ∃ r, rs.get? k = some r ∧
          enrichBuyer (nowAt (i0 + k)) (createdAtAt (i0 + k)) (i0 + k) p =
            some r := by
  intro xs
  induction xs with
  | nil =>
      intro i0 rs h k p hget
      simp at hget
  | cons q ps ih =>
      intro i0 rs h k p hget
      simp only [enrichBuyerList] at h
      cases h1 : enrichBuyer (nowAt i0) (createdAtAt i0) i0 q with
      | none => rw [h1] at h; cases h
      | some r0 =>
          rw [h1] at h
          cases h2 : enrichBuyerList nowAt createdAtAt (i0 + 1) ps with
          | none => rw [h2] at h; cases h
          | some rs' =>
              rw [h2] at h
              injection h with h3
              subst h3
              cases k with
              | zero =>
                  simp only [List.get?_cons_zero, Option.some.injEq] at hget
                  subst hget
                  exact ⟨r0, by simp, by simpa using h1⟩
              | succ m =>
                  simp only [List.get?_cons_succ] at hget
                  rcases ih (i0 + 1) rs' h2 m p hget with ⟨r, hr, henrich⟩
                  refine ⟨r, by simpa using hr, ?_⟩
                  have harith : i0 + 1 + m = i0 + (m + 1) := by omega
                  rw [harith] at henrich
                  exact henrich

theorem enrichBuyerList_isSome (nowAt : Nat → Nat)
    (createdAtAt : Nat → List Char) :
    ∀ xs, (∀ p ∈ xs, hasStringFullName p = true) →
      ∀ i, (enrichBuyerList nowAt createdAtAt i xs).isSome = true := by
  intro xs
  induction xs with
  | nil => intro _ i; simp [enrichBuyerList]
  | cons p ps ih =>
      intro hall i
      have hp := hall p (List.mem_cons_self p ps)
      have hs := enrichBuyer_isSome (nowAt i) (createdAtAt i) i p hp
      cases h1 : enrichBuyer (nowAt i) (createdAtAt i) i p with
      | none => rw [h1] at hs; cases hs
      | some r =>
          have hps : ∀ q ∈ ps, hasStringFullName q = true := by
            intro q hq
            exact hall q (List.mem_cons_of_mem p hq)
          have := ih hps (i + 1)
          cases h2 : enrichBuyerList nowAt createdAtAt (i + 1) ps with
          | none => rw [h2] at this; cases this
          | some rs' => simp [enrichBuyerList, h1, h2]

theorem enrichBuyerList_none_of_mem (nowAt : Nat → Nat)
    (createdAtAt : Nat → List Char) :
    ∀ xs p, p ∈ xs → hasStringFullName p = false →
      ∀ i, enrichBuyerList nowAt createdAtAt i xs = none := by
  intro xs
  induction xs with
  | nil => intro p hp; cases hp
  | cons q ps ih =>
      intro p hp hbad i
      rcases List.mem_cons.mp hp with hq | hps
      · subst hq
        simp [enrichBuyerList,
          enrichBuyer_none (nowAt i) (createdAtAt i) i p hbad]
      · simp only [enrichBuyerList]
        cases h1 : enrichBuyer (nowAt i) (createdAtAt i) i q with
        | none => rfl
        | some r => simp [ih p hps hbad (i + 1)]

theorem enrichBuyerList_mem (nowAt : Nat → Nat)
    (createdAtAt : Nat → List Char) :
    ∀ xs i rs, enrichBuyerList nowAt createdAtAt i xs = some rs →
      ∀ r ∈ rs, ∃ p ∈ xs, ∃ j,
        enrichBuyer (nowAt j) (createdAtAt j) j p = some r := by
  intro xs
  induction xs with
  | nil =>
      intro i rs h r hr
      simp [enrichBuyerList] at h
      subst h
      cases hr
  | cons q ps ih =>
      intro i rs h r hr
      simp only [enrichBuyerList] at h
      cases h1 : enrichBuyer (nowAt i) (createdAtAt i) i q with
      | none => rw [h1] at h; cases h
      | some r0 =>
          rw [h1] at h
          cases h2 : enrichBuyerList nowAt createdAtAt (i + 1) ps with
          | none => rw [h2] at h; cases h
          | some rs' =>
              rw [h2] at h
              injection h with h3
              subst h3
              rcases List.mem_cons.mp hr with hr0 | hr'
              · subst hr0
                exact ⟨q, List.mem_cons_self q ps, i, h1⟩
              · rcases ih (i + 1) rs' h2 r hr' with ⟨p, hpmem, j, hj⟩
                exact ⟨p, List.mem_cons_of_mem q hpmem, j, hj⟩

theorem mem_doubleQuotes (x : Char) : ∀ s, x ∈ doubleQuotes s → x ∈ s := by
  intro s
  induction s with
  | nil => simp [doubleQuotes]
  | cons c cs ih =>
      intro h
      by_cases hc : c = '\"'
      · subst hc
        have hunf : doubleQuotes ('\"' :: cs) =
            '\"' :: '\"' :: doubleQuotes cs := by
          simp [doubleQuotes]
        rw [hunf] at h
        rcases List.mem_cons.mp h with h | h
        · exact List.mem_cons.mpr (Or.inl h)
        · rcases List.mem_cons.mp h with h | h
          · exact List.mem_cons.mpr (Or.inl h)
          · exact List.mem_cons.mpr (Or.inr (ih h))
      · have hunf : doubleQuotes (c :: cs) = c :: doubleQuotes cs := by
          simp [doubleQuotes, hc]
        rw [hunf] at h
        rcases List.mem_cons.mp h with h | h
        · exact List.mem_cons.mpr (Or.inl h)
        · exact List.mem_cons.mpr (Or.inr (ih h))

theorem mem_quoteField (x : Char) (s : List Char) (h : x ∈ quoteField s) :
    x = '\"' ∨ x ∈ s := by
  have hunf : quoteField s = '\"' :: (doubleQuotes s ++ ['\"']) := rfl
  rw [hunf] at h
  rcases List.mem_cons.mp h with h | h
  · exact Or.inl h
  · rcases List.mem_append.mp h with h | h
    · exact Or.inr (mem_doubleQuotes x s h)
    · have hx : x = '\"' := by simpa using h
      exact Or.inl hx

theorem collapseDoubled_cons_ne (c : Char) (l : List Char) (hc : c ≠ '\"') :
    collapseDoubled (c :: l) = c :: collapseDoubled l := by
  cases l with
  | nil => simp [collapseDoubled]
  | cons c2 rest =>
      simp only [collapseDoubled]
      rw [if_neg]
      simp [hc]

theorem collapseDoubled_doubleQuotes : ∀ s,
    collapseDoubled (doubleQuotes s) = s := by
  intro s
  induction s with
  | nil => simp [doubleQuotes, collapseDoubled]
  | cons c cs ih =>
      by_cases hc : c = '\"'
      · subst hc
        simp only [doubleQuotes, if_pos rfl, collapseDoubled]
        rw [if_pos (by simp)]
        rw [ih]
      · simp only [doubleQuotes, if_neg hc]
        rw [collapseDoubled_cons_ne c _ hc, ih]

theorem not_mem_joinWith (x : Char) (sep : List Char) :
    ∀ ls, x ∉ sep → (∀ l ∈ ls, x ∉ l) → x ∉ joinWith sep ls := by
  intro ls
  induction ls with
  | nil => simp [joinWith]
  | cons l ls ih =>
      intro hsep hall
      cases ls with
      | nil =>
          simpa [joinWith] using hall l (by simp)
      | cons l2 ls2 =>
          simp only [joinWith, List.mem_append, not_or]
          refine ⟨⟨hall l (by simp), hsep⟩, ?_⟩
          exact ih hsep (fun m hm => hall m (List.mem_cons_of_mem l hm))

theorem splitOnChar_not_mem (c : Char) : ∀ l, c ∉ l →
    splitOnChar c l = [l] := by
  intro l
  induction l with
  | nil => simp [splitOnChar]
  | cons x xs ih =>
      intro h
      have hx : x ≠ c := by
        intro hx
        exact h (by simp [hx])
      have hxs : c ∉ xs := fun hm => h (List.mem_cons_of_mem x hm)
      simp [splitOnChar, hx, ih hxs]

theorem splitOnChar_cons_ne (c x : Char) (xs : List Char) (hx : x ≠ c) :
    splitOnChar c (x :: xs) =
      match splitOnChar c xs with
      | [] => [[x]]
      | l :: ls => (x :: l) :: ls := by
  simp [splitOnChar, hx]

theorem splitOnChar_append (c : Char) : ∀ l rest, c ∉ l →
    splitOnChar c (l ++ c :: rest) = l :: splitOnChar c rest := by
  intro l
  induction l with
  | nil => simp [splitOnChar]
  | cons x xs ih =>
      intro rest h
      have hx : x ≠ c := by
        intro hx
        exact h (by simp [hx])
      have hxs : c ∉ xs := fun hm => h (List.mem_cons_of_mem x hm)
      rw [List.cons_append, splitOnChar_cons_ne c x _ hx, ih rest hxs]

theorem splitOnChar_joinWith (c : Char) : ∀ ls, ls ≠ [] →
    (∀ l ∈ ls, c ∉ l) → splitOnChar c (joinWith [c] ls) = ls := by
  intro ls
  induction ls with
  | nil => intro h; cases h rfl
  | cons l ls ih =>
      intro _ hall
      cases ls with
      | nil => simpa [joinWith] using splitOnChar_not_mem c l (hall l (by simp))
      | cons l2 ls2 =>
          have hl : c ∉ l := hall l (by simp)
          have hrest : ∀ m ∈ l2 :: ls2, c ∉ m :=
            fun m hm => hall m (List.mem_cons_of_mem l hm)
          have hjoin : joinWith [c] (l :: l2 :: ls2) =
              l ++ c :: joinWith [c] (l2 :: ls2) := by
            simp [joinWith]
          rw [hjoin, splitOnChar_append c l _ hl, ih (by simp) hrest]

theorem countFields_quote (l : List Char) (q : Bool) :
    countFields ('\"' :: l) q = countFields l (!q) := by
  simp [countFields]

theorem countFields_comma_false (l : List Char) :
    countFields (',' :: l) false = 1 + countFields l false := by
  simp [countFields]

theorem countFields_comma_true (l : List Char) :
    countFields (',' :: l) true = countFields l true := by
  simp [countFields]

theorem countFields_other (c : Char) (l : List Char) (q : Bool)
    (hq : c ≠ '\"') (hc : c ≠ ',') :
    countFields (c :: l) q = countFields l q := by
  simp [countFields, hq, hc]

theorem countFields_escaped : ∀ s rest,
    countFields (doubleQuotes s ++ '\"' :: rest) true =
      countFields rest false := by
  intro s
  induction s with
  | nil =>
      intro rest
      show countFields ('\"' :: rest) true = countFields rest false
      rw [countFields_quote]
      rfl
  | cons c cs ih =>
      intro rest
      by_cases hc : c = '\"'
      · subst hc
        have hunf : doubleQuotes ('\"' :: cs) =
            '\"' :: '\"' :: doubleQuotes cs := by
          simp [doubleQuotes]
        rw [hunf, List.cons_append, List.cons_append, countFields_quote,
          countFields_quote]
        exact ih rest
      · have hunf : doubleQuotes (c :: cs) = c :: doubleQuotes cs := by
          simp [doubleQuotes, hc]
        by_cases hcomma : c = ','
        · subst hcomma
          rw [hunf, List.cons_append, countFields_comma_true]
          exact ih rest
        · rw [hunf, List.cons_append, countFields_other c _ _ hc hcomma]
          exact ih rest

theorem countFields_quoted_join : ∀ vs : List (List Char), vs ≠ [] →
    countFields (joinWith ",".data (vs.map quoteField)) false = vs.length := by
  intro vs
  induction vs with
  | nil => intro h; cases h rfl
  | cons v vs ih =>
      intro _
      cases vs with
      | nil =>
          show countFields ('\"' :: (doubleQuotes v ++ ['\"'])) false = 1
          rw [countFields_quote]
          exact countFields_escaped v []
      | cons v2 vs2 =>
          have hjoin : joinWith ",".data ((v :: v2 :: vs2).map quoteField) =
              '\"' :: (doubleQuotes v ++ '\"' ::
                (',' :: joinWith ",".data ((v2 :: vs2).map quoteField))) := by
            show quoteField v ++ (',' :: []) ++
                joinWith ",".data ((v2 :: vs2).map quoteField) = _
            simp [quoteField]
          rw [hjoin, countFields_quote]
          show countFields (doubleQuotes v ++ '\"' :: (',' :: _)) true = _
          rw [countFields_escaped, countFields_comma_false, ih (by simp)]
          simp only [List.length_cons]
          omega

theorem lastIndexOfChar_some_iff (c : Char) (l : List Char) (i : Nat) :
    lastIndexOfChar c l = some i ↔ isLastOcc c l i := by
  induction l generalizing i with
  | nil => simp [lastIndexOfChar, isLastOcc]
  | cons x xs ih =>
      simp only [lastIndexOfChar]
      cases hxs : lastIndexOfChar c xs with
      | some i' =>
          rcases (ih i').mp hxs with ⟨hget, hnot⟩
          have hmem : c ∈ xs := List.get?_mem hget
          cases i with
          | zero =>
              simp only [isLastOcc, List.get?_cons_zero, List.drop_succ_cons,
                List.drop_zero]
              constructor
              · intro h
                cases h
              · rintro ⟨-, habs⟩
                exact absurd hmem habs
          | succ n =>
              constructor
              · intro h
                injection h with h1
                have hin : i' = n := by omega
                subst hin
                exact ⟨by simpa using hget, by simpa using hnot⟩
              · rintro ⟨hget', hnot'⟩
                have hlast : lastIndexOfChar c xs = some n :=
                  (ih n).mpr ⟨by simpa using hget', by simpa using hnot'⟩
                rw [hxs] at hlast
                injection hlast with h1
                simp [h1]
      | none =>
          have hmem := (lastIndexOfChar_none_iff c xs).mp hxs
          by_cases hx : x = c
          · subst hx
            cases i with
            | zero =>
                simp [isLastOcc, hmem]
            | succ n =>
                simp only [if_pos rfl, isLastOcc, List.get?_cons_succ]
                constructor
                · intro h
                  cases h
                · rintro ⟨hget', -⟩
                  exact absurd (List.get?_mem hget') hmem
          · simp only [if_neg hx, isLastOcc]
            constructor
            · intro h
              cases h
            · rintro ⟨hget', -⟩
              cases i with
              | zero =>
                  simp only [List.get?_cons_zero, Option.some.injEq] at hget'
                  exact absurd hget' hx
              | succ n =>
                  simp only [List.get?_cons_succ] at hget'
                  exact absurd (List.get?_mem hget') hmem

example : extractJsonArrayString "x[a]y".data = some "[a]".data := by decide

example : extractJsonArrayString "]никогда[".data = none := by decide

example : natChars 107 = "107".data := by decide

example : collapseWs (toLowerStr "  Jane  Doe ".data) = ".jane.doe.".data := by decide

/-- Claim C2: for every input text, the Extraction Service returns the
inclusive substring from the first occurrence of `[` to the last occurrence
of `]` exactly when both characters occur and the last `]` is strictly after
the first `[`; in every other case (empty text, a missing bracket, or the
last `]` at or before the first `[`) it returns `null`.  The returned
substring is pinned down by the decomposition
`text = text.take si ++ result ++ text.drop (ei + 1)`. -/
theorem extractJsonArrayString_spec (text : List Char) :
    (('[' ∉ text ∨ ']' ∉ text) → extractJsonArrayString text = none) ∧
    (∀ si ei, isFirstOcc '[' text si → isLastOcc ']' text ei →
      (si < ei →
        extractJsonArrayString text =
          some ((text.drop si).take (ei + 1 - si)) ∧
        text = text.take si ++ (text.drop si).take (ei + 1 - si) ++
          text.drop (ei + 1)) ∧
      (ei ≤ si → extractJsonArrayString text = none)) := by
  constructor
  · intro h
    rcases h with h | h
    · have hidx : indexOfChar '[' text = none :=
        (indexOfChar_none_iff '[' text).mpr h
      simp [extractJsonArrayString, hidx]
    · have hlst : lastIndexOfChar ']' text = none :=
        (lastIndexOfChar_none_iff ']' text).mpr h
      cases hidx : indexOfChar '[' text <;>
        simp [extractJsonArrayString, hidx, hlst]
  · intro si ei hfirst hlast
    have hidx : indexOfChar '[' text = some si :=
      (indexOfChar_some_iff '[' text si).mpr hfirst
    have hlst : lastIndexOfChar ']' text = some ei :=
      (lastIndexOfChar_some_iff ']' text ei).mpr hlast
    constructor
    · intro hlt
      constructor
      · simp [extractJsonArrayString, hidx, hlst, hlt]
      · have hdecomp : (text.drop si).take (ei + 1 - si) ++
            (text.drop si).drop (ei + 1 - si) = text.drop si :=
          List.take_append_drop _ _
        have hdd : (text.drop si).drop (ei + 1 - si) = text.drop (ei + 1) := by
          rw [List.drop_drop]
          congr 1
          omega
        calc text = text.take si ++ text.drop si :=
              (List.take_append_drop si text).symm
          _ = text.take si ++ ((text.drop si).take (ei + 1 - si) ++
                (text.drop si).drop (ei + 1 - si)) := by rw [hdecomp]
          _ = text.take si ++ (text.drop si).take (ei + 1 - si) ++
                text.drop (ei + 1) := by rw [hdd, List.append_assoc]
    · intro hle
      have hnlt : ¬ si < ei := by omega
      simp [extractJsonArrayString, hidx, hlst, hnlt]

/-- Witness for C2 at `text = "x[a]y"`, first `[` at 1, last `]` at 3. -/
theorem extractJsonArrayString_spec_witness :
    extractJsonArrayString "x[a]y".data = some "[a]".data :=
  (((extractJsonArrayString_spec "x[a]y".data).2 1 3
    (by constructor <;> decide) (by constructor <;> decide)).1
    (by decide)).1

/-- Claim C8: with `process.env.API_KEY` unset both generation operations
fail with the configuration error having issued no outbound request; with it
set, exactly one outbound request is issued per invocation (whatever the
outcome). -/
theorem apiKey_gate_and_single_request :
    (∀ response parse nowAt createdAtAt feat,
      generatePhotographerData none response parse nowAt createdAtAt feat =
        (Except.error GenError.configMissing, 0)) ∧
    (∀ response parse nowAt createdAtAt,
      generateBuyerData none response parse nowAt createdAtAt =
        (Except.error GenError.configMissing, 0)) ∧
    (∀ key response parse nowAt createdAtAt feat,
      (generatePhotographerData (some key) response parse nowAt createdAtAt
        feat).2 = 1) ∧
    (∀ key response parse nowAt createdAtAt,
      (generateBuyerData (some key) response parse nowAt createdAtAt).2 = 1) := by
  refine ⟨fun _ _ _ _ _ => rfl, fun _ _ _ _ => rfl, ?_, ?_⟩
  · intro key response parse nowAt createdAtAt feat
    cases hex : extractJsonArrayString response.text with
    | none => simp [generatePhotographerData, hex]
    | some js =>
        cases hp : parse js with
        | none => simp [generatePhotographerData, hex, hp]
        | some v =>
            cases v with
            | arr xs =>
                cases hen : enrichPhotographerList nowAt createdAtAt feat 0 xs with
                | none => simp [generatePhotographerData, hex, hp, hen]
                | some rs => simp [generatePhotographerData, hex, hp, hen]
            | null => simp [generatePhotographerData, hex, hp]
            | bool b => simp [generatePhotographerData, hex, hp]
            | num n => simp [generatePhotographerData, hex, hp]
            | str s => simp [generatePhotographerData, hex, hp]
            | obj o => simp [generatePhotographerData, hex, hp]
  · intro key response parse nowAt createdAtAt
    cases hex : extractJsonArrayString response.text with
    | none => simp [generateBuyerData, hex]
    | some js =>
        cases hp : parse js with
        | none => simp [generateBuyerData, hex, hp]
        | some v =>
            cases v with
            | arr xs =>
                cases hen : enrichBuyerList nowAt createdAtAt 0 xs with
                | none => simp [generateBuyerData, hex, hp, hen]
                | some rs => simp [generateBuyerData, hex, hp, hen]
            | null => simp [generateBuyerData, hex, hp]
            | bool b => simp [generateBuyerData, hex, hp]
            | num n => simp [generateBuyerData, hex, hp]
            | str s => simp [generateBuyerData, hex, hp]
            | obj o => simp [generateBuyerData, hex, hp]

/-- Claim C3: for every raw response text (the key being present, so a
response was obtained), the pipeline either returns a fully enriched
sequence — one enriched record per parsed element, produced by a successful
extraction, parse and enrichment — or fails with the extraction-miss or
malformed-data error; it never surfaces a partially enriched result. -/
theorem pipeline_no_partial_results :
    (∀ key response parse nowAt createdAtAt feat,
      (∃ rs g, (generatePhotographerData (some key) response parse nowAt
          createdAtAt feat).1 = Except.ok (rs, g) ∧
        ∃ js xs, extractJsonArrayString response.text = some js ∧
          parse js = some (Json.arr xs) ∧
          enrichPhotographerList nowAt createdAtAt feat 0 xs = some rs ∧
          rs.length = xs.length) ∨
      (generatePhotographerData (some key) response parse nowAt createdAtAt
        feat).1 = Except.error GenError.extractionMiss ∨
      (generatePhotographerData (some key) response parse nowAt createdAtAt
        feat).1 = Except.error GenError.formatError) ∧
    (∀ key response parse nowAt createdAtAt,
      (∃ rs g, (generateBuyerData (some key) response parse nowAt
          createdAtAt).1 = Except.ok (rs, g) ∧
        ∃ js xs, extractJsonArrayString response.text = some js ∧
          parse js = some (Json.arr xs) ∧
          enrichBuyerList nowAt createdAtAt 0 xs = some rs ∧
          rs.length = xs.length) ∨
      (generateBuyerData (some key) response parse nowAt createdAtAt).1 =
        Except.error GenError.extractionMiss ∨
      (generateBuyerData (some key) response parse nowAt createdAtAt).1 =
        Except.error GenError.formatError) := by
  constructor
  · intro key response parse nowAt createdAtAt feat
    cases hex : extractJsonArrayString response.text with
    | none =>
        right; left
        simp [generatePhotographerData, hex]
    | some js =>
        cases hp : parse js with
        | none =>
            right; right
            simp [generatePhotographerData, hex, hp]
        | some v =>
            cases v with
            | arr xs =>
                cases hen : enrichPhotographerList nowAt createdAtAt feat 0 xs with
                | none =>
                    right; right
                    simp [generatePhotographerData, hex, hp, hen]
                | some rs =>
                    left
                    refine ⟨rs, response.grounding.getD [], ?_, js, xs, rfl,
                      hp, hen,
                      enrichPhotographerList_length nowAt createdAtAt feat xs 0 rs
                        hen⟩
                    simp [generatePhotographerData, hex, hp, hen]
            | null => right; right; simp [generatePhotographerData, hex, hp]
            | bool b => right; right; simp [generatePhotographerData, hex, hp]
            | num n => right; right; simp [generatePhotographerData, hex, hp]
            | str s => right; right; simp [generatePhotographerData, hex, hp]
            | obj o => right; right; simp [generatePhotographerData, hex, hp]
  · intro key response parse nowAt createdAtAt
    cases hex : extractJsonArrayString response.text with
    | none =>
        right; left
        simp [generateBuyerData, hex]
    | some js =>
        cases hp : parse js with
        | none =>
            right; right
            simp [generateBuyerData, hex, hp]
        | some v =>
            cases v with
            | arr xs =>
                cases hen : enrichBuyerList nowAt createdAtAt 0 xs with
                | none =>
                    right; right
                    simp [generateBuyerData, hex, hp, hen]
                | some rs =>
                    left
                    refine ⟨rs, response.grounding.getD [], ?_, js, xs, rfl,
                      hp, hen,
                      enrichBuyerList_length nowAt createdAtAt xs 0 rs hen⟩
                    simp [generateBuyerData, hex, hp, hen]
            | null => right; right; simp [generateBuyerData, hex, hp]
            | bool b => right; right; simp [generateBuyerData, hex, hp]
            | num n => right; right; simp [generateBuyerData, hex, hp]
            | str s => right; right; simp [generateBuyerData, hex, hp]
            | obj o => right; right; simp [generateBuyerData, hex, hp]

/-- Claim C10: if any element of a successfully parsed JSON array is not an
object carrying a string `fullName`, the contact-handle derivation throws
inside the enrichment map, the whole invocation surfaces the malformed-data
error, and no records are returned. -/
theorem element_without_string_fullName_fails :
    (∀ key response parse nowAt createdAtAt feat js xs p,
      extractJsonArrayString response.text = some js →
      parse js = some (Json.arr xs) →
      p ∈ xs → hasStringFullName p = false →
      (generatePhotographerData (some key) response parse nowAt createdAtAt
        feat).1 = Except.error GenError.formatError) ∧
    (∀ key response parse nowAt createdAtAt js xs p,
      extractJsonArrayString response.text = some js →
      parse js = some (Json.arr xs) →
      p ∈ xs → hasStringFullName p = false →
      (generateBuyerData (some key) response parse nowAt createdAtAt).1 =
        Except.error GenError.formatError) := by
  constructor
  · intro key response parse nowAt createdAtAt feat js xs p hex hp hmem hbad
    have hen : enrichPhotographerList nowAt createdAtAt feat 0 xs = none :=
      enrichPhotographerList_none_of_mem nowAt createdAtAt feat xs p hmem hbad 0
    simp [generatePhotographerData, hex, hp, hen]
  · intro key response parse nowAt createdAtAt js xs p hex hp hmem hbad
    have hen : enrichBuyerList nowAt createdAtAt 0 xs = none :=
      enrichBuyerList_none_of_mem nowAt createdAtAt xs p hmem hbad 0
    simp [generateBuyerData, hex, hp, hen]

/-- Witness for C10: the raw text `[0]` parses to an array whose single
element is a number, so the photographer pipeline fails with the
malformed-data error. -/
theorem element_without_string_fullName_fails_witness :
    (generatePhotographerData (some "k".data)
      { text := "[0]".data, grounding := none }
      (fun s => if s = "[0]".data then some (Json.arr [Json.num 0]) else none)
      (fun _ => 0) (fun _ => []) (fun _ => false)).1 =
      Except.error GenError.formatError :=
  element_without_string_fullName_fails.1 "k".data
    { text := "[0]".data, grounding := none }
    (fun s => if s = "[0]".data then some (Json.arr [Json.num 0]) else none)
    (fun _ => 0) (fun _ => []) (fun _ => false) "[0]".data [Json.num 0]
    (Json.num 0) rfl rfl (List.mem_singleton.mpr rfl) rfl

theorem photographerUid_inj (n1 n2 i j : Nat)
    (h : photographerUid n1 i = photographerUid n2 j) : i = j := by
  unfold photographerUid at h
  simp only [List.append_assoc] at h
  have h1 : natChars n1 ++ ("-".data ++ natChars i) =
      natChars n2 ++ ("-".data ++ natChars j) := List.append_cancel_left h
  have h1' : natChars n1 ++ '-' :: natChars i =
      natChars n2 ++ '-' :: natChars j := h1
  have h3 : natChars i = natChars j :=
    (append_dash_inj (natChars n1) (natChars n2) (natChars i) (natChars j)
      (dash_not_mem_natChars n1) (dash_not_mem_natChars n2) h1').2
  exact natChars_injective h3

theorem buyerUid_inj (n1 n2 i j : Nat)
    (h : buyerUid n1 i = buyerUid n2 j) : i = j := by
  unfold buyerUid at h
  simp only [List.append_assoc] at h
  have h1 : natChars n1 ++ ("-".data ++ natChars i) =
      natChars n2 ++ ("-".data ++ natChars j) := List.append_cancel_left h
  have h1' : natChars n1 ++ '-' :: natChars i =
      natChars n2 ++ '-' :: natChars j := h1
  have h3 : natChars i = natChars j :=
    (append_dash_inj (natChars n1) (natChars n2) (natChars i) (natChars j)
      (dash_not_mem_natChars n1) (dash_not_mem_natChars n2) h1').2
  exact natChars_injective h3

theorem requiredPhotographerFields_shape (p : Json)
    (h : requiredPhotographerFields p = true) :
    ∃ fields name, p = Json.obj fields ∧
      lookupField fields "fullName".data = some (Json.str name) := by
  cases p with
  | obj fields =>
      cases hlook : lookupField fields "fullName".data with
      | none => simp [requiredPhotographerFields, hlook] at h
      | some v =>
          cases v <;> simp [requiredPhotographerFields, hlook] at h <;>
            first
            | exact ⟨fields, _, rfl, hlook⟩
            | skip
  | null => simp [requiredPhotographerFields] at h
  | bool b => simp [requiredPhotographerFields] at h
  | num n => simp [requiredPhotographerFields] at h
  | str s => simp [requiredPhotographerFields] at h
  | arr xs => simp [requiredPhotographerFields] at h

theorem requiredBuyerFields_shape (p : Json)
    (h : requiredBuyerFields p = true) :
    ∃ fields name, p = Json.obj fields ∧
      lookupField fields "fullName".data = some (Json.str name) := by
  cases p with
  | obj fields =>
      cases hlook : lookupField fields "fullName".data with
      | none => simp [requiredBuyerFields, hlook] at h
      | some v =>
          cases v <;> simp [requiredBuyerFields, hlook] at h <;>
            first
            | exact ⟨fields, _, rfl, hlook⟩
            | skip
  | null => simp [requiredBuyerFields] at h
  | bool b => simp [requiredBuyerFields] at h
  | num n => simp [requiredBuyerFields] at h
  | str s => simp [requiredBuyerFields] at h
  | arr xs => simp [requiredBuyerFields] at h

theorem hasStringFullName_of_shape (fields : JObj) (name : List Char)
    (h : lookupField fields "fullName".data = some (Json.str name)) :
    hasStringFullName (Json.obj fields) = true := by
  simp [hasStringFullName, h]

theorem pairwiseSameKeys_spec (xs : List Json)
    (h : pairwiseSameKeys xs = true) (p q : Json) (hp : p ∈ xs)
    (hq : q ∈ xs) (k : List Char) : k ∈ jsonKeys p ↔ k ∈ jsonKeys q := by
  have hpq : sameKeySet p q = true := by
    have h1 := (List.all_eq_true.mp h) p hp
    exact (List.all_eq_true.mp h1) q hq
  simp only [sameKeySet, Bool.and_eq_true, List.all_eq_true] at hpq
  constructor
  · intro hk
    have := hpq.1 k hk
    simpa using this
  · intro hk
    have := hpq.2 k hk
    simpa using this

/-- Claim C5 (amended): the identifier of the record at index `i` is
`{domain}-{city}-{timestampMillis}-{i}` — `photographer-ibadan-` vs
`buyer-lagos-` — where `timestampMillis` is the `Date.now()` value sampled
during THAT record's enrichment (`nowAt i`): the code calls `Date.now()`
inside the map once per record, not once per request.  All records share a
single request-wide timestamp exactly when the clock does not advance
during the synchronous map, in which case the claim's single-timestamp form
holds (second conjunct of each part). -/
theorem uid_identifier_formula :
    (∀ nowAt createdAtAt feat xs rs,
      enrichPhotographerList nowAt createdAtAt feat 0 xs = some rs →
      ∀ i r, rs.get? i = some r →
        lookupField r "uid".data = some (Json.str
          ("photographer-ibadan-".data ++ natChars (nowAt i) ++ "-".data ++
            natChars i)) ∧
        ((∀ j, nowAt j = nowAt 0) →
          lookupField r "uid".data = some (Json.str
            ("photographer-ibadan-".data ++ natChars (nowAt 0) ++
              "-".data ++ natChars i)))) ∧
    (∀ nowAt createdAtAt xs rs,
      enrichBuyerList nowAt createdAtAt 0 xs = some rs →
      ∀ i r, rs.get? i = some r →
        lookupField r "uid".data = some (Json.str
          ("buyer-lagos-".data ++ natChars (nowAt i) ++ "-".data ++
            natChars i)) ∧
        ((∀ j, nowAt j = nowAt 0) →
          lookupField r "uid".data = some (Json.str
            ("buyer-lagos-".data ++ natChars (nowAt 0) ++ "-".data ++
              natChars i)))) := by
  constructor
  · intro nowAt createdAtAt feat xs rs hen i r hget
    have hlen := enrichPhotographerList_length nowAt createdAtAt feat xs 0 rs
      hen
    have hi : i < rs.length := by
      by_contra hcon
      rw [List.get?_eq_none.mpr (by omega)] at hget
      cases hget
    cases hx : xs.get? i with
    | none =>
        rw [List.get?_eq_none] at hx
        omega
    | some p =>
        rcases enrichPhotographerList_get? nowAt createdAtAt feat xs 0 rs hen
          i p hx with ⟨r', hr', henr⟩
        rw [hget] at hr'
        injection hr' with hrr
        subst hrr
        simp only [Nat.zero_add] at henr
        rcases (enrichPhotographer_eq_some (nowAt i) (createdAtAt i) (feat i)
          i p r).mp henr with ⟨fields, name, hpe, hname, -⟩
        subst hpe
        have huid := (enrichPhotographer_lookups (nowAt i) (createdAtAt i)
          (feat i) i fields name r hname henr).1
        refine ⟨huid, ?_⟩
        intro hconst
        rw [huid, hconst i]
        rfl
  · intro nowAt createdAtAt xs rs hen i r hget
    have hlen := enrichBuyerList_length nowAt createdAtAt xs 0 rs hen
    have hi : i < rs.length := by
      by_contra hcon
      rw [List.get?_eq_none.mpr (by omega)] at hget
      cases hget
    cases hx : xs.get? i with
    | none =>
        rw [List.get?_eq_none] at hx
        omega
    | some p =>
        rcases enrichBuyerList_get? nowAt createdAtAt xs 0 rs hen i p hx with
          ⟨r', hr', henr⟩
        rw [hget] at hr'
        injection hr' with hrr
        subst hrr
        simp only [Nat.zero_add] at henr
        rcases (enrichBuyer_eq_some (nowAt i) (createdAtAt i) i p r).mp
          henr with ⟨fields, name, hpe, hname, -⟩
        subst hpe
        have huid := (enrichBuyer_lookups (nowAt i) (createdAtAt i) i fields
          name r hname henr).1
        refine ⟨huid, ?_⟩
        intro hconst
        rw [huid, hconst i]
        rfl

/-- Counterexample to C5 as stated: a clock that ticks during the map
(`nowAt = fun i => i`) yields uids `photographer-ibadan-0-0` and
`photographer-ibadan-1-1`.  No single request timestamp fits both records:
record 0's uid forces the template's timestamp segment to be `0`, under
which record 1's uid would have to be `photographer-ibadan-0-1` (first
disequality); symmetrically, record 1 forces `1`, under which record 0's
uid would have to be `photographer-ibadan-1-0` (second disequality). -/
theorem uid_identifier_formula_counterexample :
    ((enrichPhotographerList (fun i => i) (fun _ => []) (fun _ => false) 0
        [Json.obj [("fullName".data, Json.str "a".data)],
         Json.obj [("fullName".data, Json.str "b".data)]]).map
      (fun rs => rs.map (fun r => lookupField r "uid".data)) =
      some [some (Json.str "photographer-ibadan-0-0".data),
            some (Json.str "photographer-ibadan-1-1".data)]) ∧
    "photographer-ibadan-1-1".data ≠ "photographer-ibadan-0-1".data ∧
    "photographer-ibadan-0-0".data ≠ "photographer-ibadan-1-0".data := by
  exact ⟨rfl, by decide, by decide⟩

/-- Witness for C5 (amended): under a constant clock (`nowAt = fun _ => 7`)
record 0 carries uid `photographer-ibadan-7-0`, the single-timestamp form. -/
theorem uid_identifier_formula_witness :
    lookupField (((enrichPhotographerList (fun _ => 7) (fun _ => [])
        (fun _ => false) 0
        [Json.obj [("fullName".data, Json.str "A".data)]]).getD []).headI)
      "uid".data = some (Json.str
        ("photographer-ibadan-".data ++ natChars 7 ++ "-".data ++
          natChars 0)) :=
  (uid_identifier_formula.1 (fun _ => 7) (fun _ => []) (fun _ => false)
    [Json.obj [("fullName".data, Json.str "A".data)]]
    ((enrichPhotographerList (fun _ => 7) (fun _ => []) (fun _ => false) 0
      [Json.obj [("fullName".data, Json.str "A".data)]]).getD [])
    rfl 0 _ rfl).2 (fun _ => rfl)

/-- Claim C6 (amended): every record produced by the photographer enricher
has both `earnings` and `walletBalance` set to zero; every record produced
by the buyer enricher has `walletBalance` set to zero, but the buyer
enricher sets no `earnings` field at all — whatever `earnings` the parsed
element carried (usually nothing) is passed through verbatim. -/
theorem accounting_fields_zeroed :
    (∀ now createdAt featured i p r,
      enrichPhotographer now createdAt featured i p = some r →
      lookupField r "earnings".data = some (Json.num 0) ∧
      lookupField r "walletBalance".data = some (Json.num 0)) ∧
    (∀ now createdAt i p r,
      enrichBuyer now createdAt i p = some r →
      lookupField r "walletBalance".data = some (Json.num 0) ∧
      ∀ fields, p = Json.obj fields →
        lookupField r "earnings".data =
          lookupField fields "earnings".data) := by
  constructor
  · intro now createdAt featured i p r h
    rcases (enrichPhotographer_eq_some now createdAt featured i p r).mp h with
      ⟨fields, name, hpe, hname, -⟩
    subst hpe
    have hl := enrichPhotographer_lookups now createdAt featured i fields
      name r hname h
    exact ⟨hl.2.2.1, hl.2.2.2⟩
  · intro now createdAt i p r h
    rcases (enrichBuyer_eq_some now createdAt i p r).mp h with
      ⟨fields, name, hpe, hname, -⟩
    subst hpe
    have hl := enrichBuyer_lookups now createdAt i fields name r hname h
    refine ⟨hl.2.2.1, ?_⟩
    intro fields' heq
    injection heq with heqf
    subst heqf
    exact hl.2.2.2

/-- Counterexample to C6 as stated: a buyer record has no `earnings` field
at all, so its `earnings` is not the zeroed value the claim promises for
"either pipeline" (the enrichment itself succeeds, as the first conjunct
shows). -/
theorem accounting_fields_zeroed_counterexample :
    (enrichBuyer 0 [] 0
        (Json.obj [("fullName".data, Json.str "a".data)])).map
      (fun r => lookupField r "earnings".data) = some none ∧
    (enrichBuyer 0 [] 0
        (Json.obj [("fullName".data, Json.str "a".data)])).map
      (fun r => lookupField r "earnings".data) ≠
        some (some (Json.num 0)) := by
  constructor
  · rfl
  · intro h
    rw [show (enrichBuyer 0 [] 0
        (Json.obj [("fullName".data, Json.str "a".data)])).map
      (fun r => lookupField r "earnings".data) = some none from rfl] at h
    injection h with h1
    cases h1

/-- Witness for C6 (amended) on the photographer side: a concrete enriched
photographer record carries zero `earnings` and zero `walletBalance`. -/
theorem accounting_fields_zeroed_witness :
    lookupField ((enrichPhotographer 2 [] false 0
        (Json.obj [("fullName".data, Json.str "A".data)])).getD [])
      "earnings".data = some (Json.num 0) ∧
    lookupField ((enrichPhotographer 2 [] false 0
        (Json.obj [("fullName".data, Json.str "A".data)])).getD [])
      "walletBalance".data = some (Json.num 0) :=
  accounting_fields_zeroed.1 2 [] false 0
    (Json.obj [("fullName".data, Json.str "A".data)])
    ((enrichPhotographer 2 [] false 0
      (Json.obj [("fullName".data, Json.str "A".data)])).getD []) rfl

/-- Claim C7: for every parsed element whose `fullName` is a string, the
enricher assigns the record's email to the lowercased full name with each
maximal run of whitespace replaced by a single `'.'` separator, concatenated
with `.{i}@test.com`, in both pipelines. -/
theorem email_contact_handle :
    (∀ now createdAt featured i fields name,
      lookupField fields "fullName".data = some (Json.str name) →
      (enrichPhotographer now createdAt featured i (Json.obj fields)).map
          (fun r => lookupField r "email".data) =
        some (some (Json.str (collapseWs (toLowerStr name) ++ ".".data ++
          natChars i ++ "@test.com".data)))) ∧
    (∀ now createdAt i fields name,
      lookupField fields "fullName".data = some (Json.str name) →
      (enrichBuyer now createdAt i (Json.obj fields)).map
          (fun r => lookupField r "email".data) =
        some (some (Json.str (collapseWs (toLowerStr name) ++ ".".data ++
          natChars i ++ "@test.com".data)))) := by
  constructor
  · intro now createdAt featured i fields name hname
    cases henr : enrichPhotographer now createdAt featured i
        (Json.obj fields) with
    | none =>
        have hs := enrichPhotographer_isSome now createdAt featured i
          (Json.obj fields) (hasStringFullName_of_shape fields name hname)
        rw [henr] at hs
        cases hs
    | some r =>
        have hl := (enrichPhotographer_lookups now createdAt featured i
          fields name r hname henr).2.1
        simp only [Option.map_some']
        rw [hl]
        rfl
  · intro now createdAt i fields name hname
    cases henr : enrichBuyer now createdAt i (Json.obj fields) with
    | none =>
        have hs := enrichBuyer_isSome now createdAt i (Json.obj fields)
          (hasStringFullName_of_shape fields name hname)
        rw [henr] at hs
        cases hs
    | some r =>
        have hl := (enrichBuyer_lookups now createdAt i fields name r hname
          henr).2.1
        simp only [Option.map_some']
        rw [hl]
        rfl

/-- Witness for C7: the whitespace-containing name `Ann Lee` at index 0
yields the contact handle `ann.lee.0@test.com`. -/
theorem email_contact_handle_witness :
    (enrichPhotographer 3 "t".data true 0
        (Json.obj [("fullName".data, Json.str "Ann Lee".data)])).map
      (fun r => lookupField r "email".data) =
      some (some (Json.str (collapseWs (toLowerStr "Ann Lee".data) ++
        ".".data ++ natChars 0 ++ "@test.com".data))) :=
  email_contact_handle.1 3 "t".data true 0
    [("fullName".data, Json.str "Ann Lee".data)] "Ann Lee".data rfl

theorem enrichPhotographerList_uid (nowAt : Nat → Nat)
    (createdAtAt : Nat → List Char) (feat : Nat → Bool) (xs : List Json)
    (rs : List JObj)
    (hen : enrichPhotographerList nowAt createdAtAt feat 0 xs = some rs)
    (i : Nat) (r : JObj) (hget : rs.get? i = some r) :
    lookupField r "uid".data =
      some (Json.str (photographerUid (nowAt i) i)) := by
  have hlen := enrichPhotographerList_length nowAt createdAtAt feat xs 0 rs
    hen
  have hi : i < rs.length := by
    by_contra hcon
    rw [List.get?_eq_none.mpr (by omega)] at hget
    cases hget
  cases hx : xs.get? i with
  | none =>
      rw [List.get?_eq_none] at hx
      omega
  | some p =>
      rcases enrichPhotographerList_get? nowAt createdAtAt feat xs 0 rs hen
        i p hx with ⟨r', hr', henr⟩
      rw [hget] at hr'
      injection hr' with hrr
      subst hrr
      simp only [Nat.zero_add] at henr
      rcases (enrichPhotographer_eq_some (nowAt i) (createdAtAt i) (feat i)
        i p r).mp henr with ⟨fields, name, hpe, hname, -⟩
      subst hpe
      exact (enrichPhotographer_lookups (nowAt i) (createdAtAt i) (feat i) i
        fields name r hname henr).1

theorem enrichBuyerList_uid (nowAt : Nat → Nat)
    (createdAtAt : Nat → List Char) (xs : List Json) (rs : List JObj)
    (hen : enrichBuyerList nowAt createdAtAt 0 xs = some rs)
    (i : Nat) (r : JObj) (hget : rs.get? i = some r) :
    lookupField r "uid".data = some (Json.str (buyerUid (nowAt i) i)) := by
  have hlen := enrichBuyerList_length nowAt createdAtAt xs 0 rs hen
  have hi : i < rs.length := by
    by_contra hcon
    rw [List.get?_eq_none.mpr (by omega)] at hget
    cases hget
  cases hx : xs.get? i with
  | none =>
      rw [List.get?_eq_none] at hx
      omega
  | some p =>
      rcases enrichBuyerList_get? nowAt createdAtAt xs 0 rs hen i p hx with
        ⟨r', hr', henr⟩
      rw [hget] at hr'
      injection hr' with hrr
      subst hrr
      simp only [Nat.zero_add] at henr
      rcases (enrichBuyer_eq_some (nowAt i) (createdAtAt i) i p r).mp
        henr with ⟨fields, name, hpe, hname, -⟩
      subst hpe
      exact (enrichBuyer_lookups (nowAt i) (createdAtAt i) i fields name r
        hname henr).1

/-- Claim C1 (amended): for every parsed array of `N` objects carrying the
required model-supplied fields, each enricher succeeds with exactly `N`
records whose `uid`s are pairwise distinct — unconditionally, even across
differing per-record timestamps, since a uid's dash-free timestamp and index
segments decompose uniquely.  The records all have identical field sets
PROVIDED the input objects themselves have pairwise identical key sets (the
spread copies any extra model-supplied key into its record, so an extra key
on one element alone breaks schema uniformity — see the counterexample). -/
theorem enrich_count_unique_uniform :
    (∀ nowAt createdAtAt feat xs,
      (∀ p ∈ xs, requiredPhotographerFields p = true) →
      (enrichPhotographerList nowAt createdAtAt feat 0 xs).isSome = true ∧
      ∀ rs, enrichPhotographerList nowAt createdAtAt feat 0 xs = some rs →
        rs.length = xs.length ∧
        (∀ i j r1 r2, rs.get? i = some r1 → rs.get? j = some r2 → i ≠ j →
          lookupField r1 "uid".data ≠ lookupField r2 "uid".data) ∧
        (pairwiseSameKeys xs = true →
          ∀ r1 ∈ rs, ∀ r2 ∈ rs, ∀ k, (k ∈ keys r1 ↔ k ∈ keys r2))) ∧
    (∀ nowAt createdAtAt xs,
      (∀ p ∈ xs, requiredBuyerFields p = true) →
      (enrichBuyerList nowAt createdAtAt 0 xs).isSome = true ∧
      ∀ rs, enrichBuyerList nowAt createdAtAt 0 xs = some rs →
        rs.length = xs.length ∧
        (∀ i j r1 r2, rs.get? i = some r1 → rs.get? j = some r2 → i ≠ j →
          lookupField r1 "uid".data ≠ lookupField r2 "uid".data) ∧
        (pairwiseSameKeys xs = true →
          ∀ r1 ∈ rs, ∀ r2 ∈ rs, ∀ k, (k ∈ keys r1 ↔ k ∈ keys r2))) := by
  constructor
  · intro nowAt createdAtAt feat xs hreq
    have hstr : ∀ p ∈ xs, hasStringFullName p = true := by
      intro p hp
      rcases requiredPhotographerFields_shape p (hreq p hp) with
        ⟨fields, name, hpe, hname⟩
      subst hpe
      exact hasStringFullName_of_shape fields name hname
    refine ⟨enrichPhotographerList_isSome nowAt createdAtAt feat xs hstr 0,
      ?_⟩
    intro rs hen
    refine ⟨enrichPhotographerList_length nowAt createdAtAt feat xs 0 rs hen,
      ?_, ?_⟩
    · intro i j r1 r2 h1 h2 hij heq
      have hu1 := enrichPhotographerList_uid nowAt createdAtAt feat xs rs
        hen i r1 h1
      have hu2 := enrichPhotographerList_uid nowAt createdAtAt feat xs rs
        hen j r2 h2
      rw [hu1, hu2] at heq
      injection heq with heq1
      injection heq1 with heq2
      exact hij (photographerUid_inj (nowAt i) (nowAt j) i j heq2)
    · intro huni r1 hr1 r2 hr2 k
      rcases enrichPhotographerList_mem nowAt createdAtAt feat xs 0 rs hen
        r1 hr1 with ⟨p1, hp1, j1, hj1⟩
      rcases enrichPhotographerList_mem nowAt createdAtAt feat xs 0 rs hen
        r2 hr2 with ⟨p2, hp2, j2, hj2⟩
      rcases requiredPhotographerFields_shape p1 (hreq p1 hp1) with
        ⟨f1, n1, hpe1, -⟩
      rcases requiredPhotographerFields_shape p2 (hreq p2 hp2) with
        ⟨f2, n2, hpe2, -⟩
      subst hpe1
      subst hpe2
      have hk1 := mem_keys_enrichPhotographer (nowAt j1) (createdAtAt j1)
        (feat j1) j1 f1 r1 hj1 k
      have hk2 := mem_keys_enrichPhotographer (nowAt j2) (createdAtAt j2)
        (feat j2) j2 f2 r2 hj2 k
      have huk : k ∈ keys f1 ↔ k ∈ keys f2 := by
        have h := pairwiseSameKeys_spec xs huni (Json.obj f1) (Json.obj f2)
          hp1 hp2 k
        simpa [jsonKeys] using h
      rw [hk1, hk2, huk]
  · intro nowAt createdAtAt xs hreq
    have hstr : ∀ p ∈ xs, hasStringFullName p = true := by
      intro p hp
      rcases requiredBuyerFields_shape p (hreq p hp) with
        ⟨fields, name, hpe, hname⟩
      subst hpe
      exact hasStringFullName_of_shape fields name hname
    refine ⟨enrichBuyerList_isSome nowAt createdAtAt xs hstr 0, ?_⟩
    intro rs hen
    refine ⟨enrichBuyerList_length nowAt createdAtAt xs 0 rs hen, ?_, ?_⟩
    · intro i j r1 r2 h1 h2 hij heq
      have hu1 := enrichBuyerList_uid nowAt createdAtAt xs rs hen i r1 h1
      have hu2 := enrichBuyerList_uid nowAt createdAtAt xs rs hen j r2 h2
      rw [hu1, hu2] at heq
      injection heq with heq1
      injection heq1 with heq2
      exact hij (buyerUid_inj (nowAt i) (nowAt j) i j heq2)
    · intro huni r1 hr1 r2 hr2 k
      rcases enrichBuyerList_mem nowAt createdAtAt xs 0 rs hen r1 hr1 with
        ⟨p1, hp1, j1, hj1⟩
      rcases enrichBuyerList_mem nowAt createdAtAt xs 0 rs hen r2 hr2 with
        ⟨p2, hp2, j2, hj2⟩
      rcases requiredBuyerFields_shape p1 (hreq p1 hp1) with
        ⟨f1, n1, hpe1, -⟩
      rcases requiredBuyerFields_shape p2 (hreq p2 hp2) with
        ⟨f2, n2, hpe2, -⟩
      subst hpe1
      subst hpe2
      have hk1 := mem_keys_enrichBuyer (nowAt j1) (createdAtAt j1) j1 f1 r1
        hj1 k
      have hk2 := mem_keys_enrichBuyer (nowAt j2) (createdAtAt j2) j2 f2 r2
        hj2 k
      have huk : k ∈ keys f1 ↔ k ∈ keys f2 := by
        have h := pairwiseSameKeys_spec xs huni (Json.obj f1) (Json.obj f2)
          hp1 hp2 k
        simpa [jsonKeys] using h
      rw [hk1, hk2, huk]

/-- Counterexample to C1 as stated: both input objects carry the required
model-supplied fields, enrichment succeeds with two records, yet the second
record's field set contains the extra model-supplied key `extra` while the
first record's does not — the field sets are not identical. -/
theorem enrich_count_unique_uniform_counterexample :
    ([Json.obj [("fullName".data, Json.str "a".data),
        ("portfolioImageUrl".data, Json.str "u".data),
        ("specialty".data, Json.str "s".data)],
      Json.obj [("fullName".data, Json.str "b".data),
        ("portfolioImageUrl".data, Json.str "u".data),
        ("specialty".data, Json.str "s".data),
        ("extra".data, Json.null)]].all requiredPhotographerFields
      = true) ∧
    ((enrichPhotographerList (fun _ => 0) (fun _ => []) (fun _ => false) 0
        [Json.obj [("fullName".data, Json.str "a".data),
          ("portfolioImageUrl".data, Json.str "u".data),
          ("specialty".data, Json.str "s".data)],
         Json.obj [("fullName".data, Json.str "b".data),
          ("portfolioImageUrl".data, Json.str "u".data),
          ("specialty".data, Json.str "s".data),
          ("extra".data, Json.null)]]).map
      (fun rs => rs.map (fun r => decide ("extra".data ∈ keys r))) =
      some [false, true]) := by
  exact ⟨by decide, by decide⟩

/-- Witness for C1 (amended): a uniform one-element input enriches
successfully. -/
theorem enrich_count_unique_uniform_witness :
    (enrichPhotographerList (fun _ => 1) (fun _ => []) (fun _ => true) 0
      [Json.obj [("fullName".data, Json.str "A".data),
        ("portfolioImageUrl".data, Json.str "u".data),
        ("specialty".data, Json.str "s".data)]]).isSome = true :=
  (enrich_count_unique_uniform.1 (fun _ => 1) (fun _ => []) (fun _ => true)
    [Json.obj [("fullName".data, Json.str "A".data),
      ("portfolioImageUrl".data, Json.str "u".data),
      ("specialty".data, Json.str "s".data)]]
    (by decide)).1

/-- Claim C9: invoked with an absent or empty record sequence, both CSV
download handlers are a no-op — no download is triggered (the model returns
`none`: no filename, no content, no other effect). -/
theorem empty_sequence_no_download :
    (∀ dateStr, AppPhotographers.handleDownloadCsv none dateStr = none ∧
      AppPhotographers.handleDownloadCsv (some []) dateStr = none) ∧
    (∀ dateStr, AppBuyers.handleDownloadCsv none dateStr = none ∧
      AppBuyers.handleDownloadCsv (some []) dateStr = none) :=
  ⟨fun _ => ⟨rfl, rfl⟩, fun _ => ⟨rfl, rfl⟩⟩

theorem stringValue_str (s : List Char) : stringValue (Json.str s) = s := by
  simp [stringValue]

theorem renderCell_str (row : JObj) (k s : List Char)
    (h : lookupField row k = some (Json.str s)) : renderCell row k = s := by
  simp [renderCell, h, stringValue_str]

theorem csvUnquote_quoteField (v : List Char) :
    csvUnquote (quoteField v) = v := by
  show collapseDoubled (List.dropLast
    (('\"' :: (doubleQuotes v ++ ['\"'])).drop 1)) = v
  show collapseDoubled (List.dropLast (doubleQuotes v ++ ['\"'])) = v
  rw [List.dropLast_concat]
  exact collapseDoubled_doubleQuotes v

/-- Claim C4 (amended): for a non-empty enriched sequence, PROVIDED no
rendered cell value contains a newline and no column name contains a newline
or a comma, the exported text splits by newline into exactly `N + 1` lines;
the header's comma-split column count equals every data line's quote-aware
field count; and every exported cell, after standard CSV unescaping (strip
the outer quotes, collapse doubled quotes), equals the rendered value — in
particular values containing double quotes round-trip.  Without the newline
proviso the line-count conjunct is false (see the counterexample): the
exporter only escapes double quotes and never newlines. -/
theorem csv_round_trip (r0 : JObj) (rest : List JObj)
    (hkc : ∀ k ∈ keys r0, (',' : Char) ∉ k)
    (hkn : ∀ k ∈ keys r0, ('\n' : Char) ∉ k)
    (hvn : ∀ row ∈ r0 :: rest, ∀ k ∈ keys r0,
      ('\n' : Char) ∉ renderCell row k) :
    (splitOnChar '\n' (csvContentOf r0 rest)).length =
      (r0 :: rest).length + 1 ∧
    (∀ line ∈ (splitOnChar '\n' (csvContentOf r0 rest)).tail,
      countFields line false =
        (splitOnChar ','
          ((splitOnChar '\n' (csvContentOf r0 rest)).headI)).length) ∧
    (∀ row ∈ r0 :: rest, ∀ k ∈ keys r0,
      csvUnquote (quoteField (renderCell row k)) = renderCell row k) := by
  have hnl_hdr : ('\n' : Char) ∉ joinWith ",".data (keys r0) := by
    apply not_mem_joinWith '\n' ",".data (keys r0) (by decide) hkn
  have hnl_row : ∀ row ∈ r0 :: rest,
      ('\n' : Char) ∉ csvRowLine (keys r0) row := by
    intro row hrow
    apply not_mem_joinWith '\n' ",".data _ (by decide)
    intro cell hcell
    rcases List.mem_map.mp hcell with ⟨h, hh, hc⟩
    subst hc
    intro hmem
    rcases mem_quoteField '\n' _ hmem with habs | hin
    · exact absurd habs (by decide)
    · exact hvn row hrow h hh hin
  have hall : ∀ l ∈ joinWith ",".data (keys r0) ::
      (r0 :: rest).map (csvRowLine (keys r0)), ('\n' : Char) ∉ l := by
    intro l hl
    rcases List.mem_cons.mp hl with hl | hl
    · subst hl
      exact hnl_hdr
    · rcases List.mem_map.mp hl with ⟨row, hrow, hlr⟩
      subst hlr
      exact hnl_row row hrow
  have hsplit : splitOnChar '\n' (csvContentOf r0 rest) =
      joinWith ",".data (keys r0) ::
        (r0 :: rest).map (csvRowLine (keys r0)) := by
    show splitOnChar '\n' (joinWith ['\n'] (joinWith ",".data (keys r0) ::
      (r0 :: rest).map (csvRowLine (keys r0)))) = _
    exact splitOnChar_joinWith '\n' _ (by simp) hall
  refine ⟨?_, ?_, ?_⟩
  · rw [hsplit]
    simp
  · intro line hline
    rw [hsplit] at hline
    rw [hsplit]
    simp only [List.tail_cons] at hline
    simp only [List.headI]
    rcases List.mem_map.mp hline with ⟨row, hrow, hlr⟩
    subst hlr
    cases hk0 : keys r0 with
    | nil =>
        simp [csvRowLine, hk0, joinWith, splitOnChar, countFields]
    | cons k0 ks =>
        have hkne : keys r0 ≠ [] := by rw [hk0]; simp
        rw [← hk0]
        show countFields (joinWith ",".data
          ((keys r0).map (fun h => quoteField (renderCell row h)))) false = _
        rw [show (keys r0).map (fun h => quoteField (renderCell row h)) =
          ((keys r0).map (renderCell row)).map quoteField from by
            rw [List.map_map]; rfl]
        rw [countFields_quoted_join ((keys r0).map (renderCell row))
          (by simpa using hkne)]
        rw [splitOnChar_joinWith ',' (keys r0) hkne hkc]
        simp
  · intro row hrow k hk
    exact csvUnquote_quoteField (renderCell row k)

/-- Counterexample to C4 as stated: one record whose single field value
contains a newline.  The exported text is `a\n"x\ny"`, so splitting by
newline yields 3 lines, not `N + 1 = 2`: the exporter's quoting never
escapes newlines. -/
theorem csv_round_trip_counterexample :
    (splitOnChar '\n'
      (csvContentOf [("a".data, Json.str "x\ny".data)] [])).length = 3 ∧
    (splitOnChar '\n'
      (csvContentOf [("a".data, Json.str "x\ny".data)] [])).length ≠
        1 + 1 := by
  have hcell : renderCell [("a".data, Json.str "x\ny".data)] "a".data =
      "x\ny".data :=
    renderCell_str _ _ _ rfl
  have hcsv : csvContentOf [("a".data, Json.str "x\ny".data)] [] =
      "a\n\"x\ny\"".data := by
    show joinWith ['\n']
      (joinWith ",".data (keys [("a".data, Json.str "x\ny".data)]) ::
        [csvRowLine (keys [("a".data, Json.str "x\ny".data)])
          [("a".data, Json.str "x\ny".data)]]) = _
    rw [show csvRowLine (keys [("a".data, Json.str "x\ny".data)])
        [("a".data, Json.str "x\ny".data)] =
      joinWith ",".data [quoteField
        (renderCell [("a".data, Json.str "x\ny".data)] "a".data)] from rfl]
    rw [hcell]
    decide
  rw [hcsv]
  exact ⟨by decide, by decide⟩

/-- Witness for C4 (amended): a single record whose value contains both a
double quote and a comma (but no newline) satisfies the premises, and the
export splits into exactly 2 lines. -/
theorem csv_round_trip_witness :
    (splitOnChar '\n'
      (csvContentOf [("a".data, Json.str "v\",w".data)] [])).length = 2 :=
  (csv_round_trip [("a".data, Json.str "v\",w".data)] []
    (by decide) (by decide)
    (by
      intro row hrow k hk
      have hrow' : row = [("a".data, Json.str "v\",w".data)] := by
        simpa using hrow
      have hk' : k = "a".data := by simpa [keys] using hk
      subst hrow'
      subst hk'
      rw [renderCell_str [("a".data, Json.str "v\",w".data)] "a".data
        "v\",w".data rfl]
      decide)).1
